import Mathlib

/-!
# QuickDimmer backend — shallow embedding and verification

This file embeds the core state and operations of the QuickDimmer backend
(`src/backend/display_manager.py`, `src/backend/focus_detector.py`, and the
focus-change step of `src/backend/main.py`) as executable Lean definitions, and
proves or refutes the specification claims about them.

Modelling conventions:
* Python `dict`s become association lists (`List (Nat × α)`) with
  insertion-order iteration: updating an existing key keeps its position,
  inserting a new key appends at the end, deleting removes the entry
  (`aget` / `aset` / `adel` below).
* Python `float` opacities become `ℚ`; the comparisons `0.0 <= v <= 1.0` are
  exact at the boundaries, which is all the code relies on.
* OS effects are made explicit state: spawning an overlay subprocess allocates
  the next pid from a counter (`nextPid`) and bumps `spawnCount`; terminating
  one bumps `killCount`; `os.kill(pid, 0)` liveness probing is modelled by a
  set `deadPids` of pids that have died (never mutated by the operations
  themselves).  The overlay subprocess is summarised by the parameters the
  manager hands it that later matter: its pid and the opacity it renders.
* Fallible operations return `Bool × DMState` mirroring the Python methods'
  `bool` results; the blanket `except` handlers of the source are unreachable
  in the pure model and so do not appear.
-/

namespace QuickDimmer

/-- First value bound to key `k` in an association list (Python `d[k]` /
`d.get(k)`: in a dict keys are unique, so first match is the match). -/
def aget {α : Type} (l : List (Nat × α)) (k : Nat) : Option α :=
  match l with
  | [] => none
  | (k', v) :: t => if k' = k then some v else aget t k

/-- Python `d[k] = v`: replace in place if the key exists (keeping its
iteration position), otherwise append at the end. -/
def aset {α : Type} (l : List (Nat × α)) (k : Nat) (v : α) : List (Nat × α) :=
  match l with
  | [] => [(k, v)]
  | (k', v') :: t => if k' = k then (k, v) :: t else (k', v') :: aset t k v

/-- Python `del d[k]`. -/
def adel {α : Type} (l : List (Nat × α)) (k : Nat) : List (Nat × α) :=
  match l with
  | [] => []
  | (k', v') :: t => if k' = k then adel t k else (k', v') :: adel t k

/-- Keys in iteration order (Python `for k in d` / `list(d.keys())`). -/
def akeys {α : Type} (l : List (Nat × α)) : List Nat := l.map Prod.fst

/-- A display's cached frame, `display_bounds[display_id] = (x, y, width,
height)` in `DisplayManager.cache_display_info`. -/
structure Bounds where
  x : Int
  y : Int
  w : Int
  h : Int
deriving DecidableEq, Repr

/-- What the manager records about a spawned overlay subprocess: the stored
pid (`overlay_processes[display_id] = process.pid`) together with the opacity
the spawned script was instantiated with (`window.setAlphaValue_(opacity)`). -/
structure OverlayRec where
  pid : Nat
  opacity : ℚ
deriving DecidableEq, Repr

/-- The mutable state of `DisplayManager` (fields of `__init__`), plus the
explicit OS bookkeeping described in the module header. -/
structure DMState where
  overlay_processes : List (Nat × OverlayRec)
  display_bounds : List (Nat × Bounds)
  current_focused_display : Option Nat
  monitor_opacity : List (Nat × ℚ)
  monitor_enabled : List (Nat × Bool)
  default_opacity : ℚ
  default_enabled : Bool
  nextPid : Nat
  deadPids : List Nat
  spawnCount : Nat
  killCount : Nat
deriving DecidableEq, Repr

/-- `DisplayManager.__init__`: empty tables, defaults 0.83 / enabled. -/
def initState : DMState where
  overlay_processes := []
  display_bounds := []
  current_focused_display := none
  monitor_opacity := []
  monitor_enabled := []
  default_opacity := mkRat 83 100
  default_enabled := true
  nextPid := 0
  deadPids := []
  spawnCount := 0
  killCount := 0

/-- `os.kill(pid, 0)` succeeding: the pid has not died. -/
def alive (σ : DMState) (p : Nat) : Bool := !(σ.deadPids.contains p)

/-- Effective per-monitor enabled setting,
`self.monitor_enabled.get(display_id, self.default_enabled)`. -/
def enabledOf (σ : DMState) (d : Nat) : Bool :=
  (aget σ.monitor_enabled d).getD σ.default_enabled

/-- Effective per-monitor opacity,
`self.monitor_opacity.get(display_id, self.default_opacity)`. -/
def opacityOf (σ : DMState) (d : Nat) : ℚ :=
  (aget σ.monitor_opacity d).getD σ.default_opacity

/-- The `subprocess.Popen` tail of `DisplayManager.create_overlay`: spawn the
overlay script with this display's configured opacity and record its pid. -/
def spawn_overlay (σ : DMState) (d : Nat) : DMState :=
  { σ with
    overlay_processes := aset σ.overlay_processes d ⟨σ.nextPid, opacityOf σ d⟩
    nextPid := σ.nextPid + 1
    spawnCount := σ.spawnCount + 1 }

/-- `DisplayManager.create_overlay`: no-op success when a live overlay is
already tracked; a dead tracked pid is purged first; unknown bounds fail;
otherwise spawn and track. -/
def create_overlay (σ : DMState) (d : Nat) : Bool × DMState :=
  match aget σ.overlay_processes d with
  | some r =>
      if alive σ r.pid then (true, σ)
      else
        let σ' := { σ with overlay_processes := adel σ.overlay_processes d }
        if (aget σ'.display_bounds d).isSome then (true, spawn_overlay σ' d)
        else (false, σ')
  | none =>
      if (aget σ.display_bounds d).isSome then (true, spawn_overlay σ d)
      else (false, σ)

/-- `DisplayManager.remove_overlay`: no-op success when untracked; otherwise
signal the process group (counted in `killCount`) and drop the entry. -/
def remove_overlay (σ : DMState) (d : Nat) : Bool × DMState :=
  if (aget σ.overlay_processes d).isSome then
    (true, { σ with overlay_processes := adel σ.overlay_processes d
                    killCount := σ.killCount + 1 })
  else (true, σ)

/-- One iteration of the loop body of `DisplayManager.update_overlays`. -/
def update_step (f : Nat) (σ : DMState) (d : Nat) : DMState :=
  if d = f then (remove_overlay σ d).2
  else if enabledOf σ d then (create_overlay σ d).2
  else (remove_overlay σ d).2

/-- `DisplayManager.update_overlays(focused_display_id)`: for every display in
the bounds table, remove the overlay on the focused display, create on enabled
non-focused displays, remove on disabled ones. -/
def update_overlays (σ : DMState) (f : Nat) : DMState :=
  (akeys σ.display_bounds).foldl (update_step f) σ

/-- The remove-then-recreate step `set_opacity` applies to a display whose
overlay must pick up a changed opacity (`self.remove_overlay(display_id);
self.create_overlay(display_id)`). -/
def reopacity_step (s : DMState) (d : Nat) : DMState :=
  (create_overlay (remove_overlay s d).2 d).2

/-- The per-display store step of the global branch of `set_opacity`
(`self.monitor_opacity[display_id] = opacity` for every known display). -/
def store_opacity_step (v : ℚ) (s : DMState) (d : Nat) : DMState :=
  { s with monitor_opacity := aset s.monitor_opacity d v }

/-- `DisplayManager.set_opacity(opacity, display_id=None)`: reject values
outside `[0, 1]`; per-display scope additionally rejects unknown displays,
stores the value and recreates the overlay if one is tracked; global scope
stores the default, overwrites every known display's stored opacity, and
recreates every tracked overlay. -/
def set_opacity (σ : DMState) (opacity : ℚ) (display_id : Option Nat) :
    Bool × DMState :=
  if ¬ (0 ≤ opacity ∧ opacity ≤ 1) then (false, σ)
  else
    match display_id with
    | some d =>
        if (aget σ.display_bounds d).isSome then
          let σ₁ := { σ with monitor_opacity := aset σ.monitor_opacity d opacity }
          if (aget σ₁.overlay_processes d).isSome then
            (true, reopacity_step σ₁ d)
          else (true, σ₁)
        else (false, σ)
    | none =>
        let σ₁ := { σ with default_opacity := opacity }
        let σ₂ := (akeys σ₁.display_bounds).foldl (store_opacity_step opacity) σ₁
        let σ₃ := (akeys σ₂.overlay_processes).foldl reopacity_step σ₂
        (true, σ₃)

/-- `DisplayManager.set_monitor_enabled(display_id, enabled)`: unknown display
fails; otherwise record the setting, remove the overlay when disabling,
create it when enabling a non-focused display. -/
def set_monitor_enabled (σ : DMState) (d : Nat) (enabled : Bool) :
    Bool × DMState :=
  if (aget σ.display_bounds d).isSome then
    let σ₁ := { σ with monitor_enabled := aset σ.monitor_enabled d enabled }
    if ¬ enabled then (true, (remove_overlay σ₁ d).2)
    else if σ₁.current_focused_display ≠ some d then (true, (create_overlay σ₁ d).2)
    else (true, σ₁)
  else (false, σ)

/-- The removal step of the disable branch of `toggle_enabled` (and of
`stop_monitoring`): `self.remove_overlay(display_id)` for each tracked key. -/
def remove_step (s : DMState) (d : Nat) : DMState := (remove_overlay s d).2

/-- `DisplayManager.toggle_enabled()`: flip the default enabled flag; when now
disabled remove every tracked overlay, when now enabled re-run
`update_overlays` against the current focus (if one is recorded); return the
new flag. -/
def toggle_enabled (σ : DMState) : Bool × DMState :=
  let σ₁ := { σ with default_enabled := !σ.default_enabled }
  if ¬ σ₁.default_enabled then
    let σ₂ := (akeys σ₁.overlay_processes).foldl remove_step σ₁
    (σ₂.default_enabled, σ₂)
  else
    match σ₁.current_focused_display with
    | some f => let σ₂ := update_overlays σ₁ f; (σ₂.default_enabled, σ₂)
    | none => (σ₁.default_enabled, σ₁)

/-- `DisplayManager.cache_display_info` (success path): `screens` is the
`NSScreen.screens()` enumeration as (display id, frame) pairs, the id being
`deviceDescription['NSScreenNumber']` (or index+1).  Each screen's bounds are
recorded and its per-monitor settings are initialised from the defaults when
absent. -/
def cache_display_info (σ : DMState) (screens : List (Nat × Bounds)) : DMState :=
  screens.foldl
    (fun s p =>
      let s := { s with display_bounds := aset s.display_bounds p.1 p.2 }
      let s := if (aget s.monitor_opacity p.1).isSome then s
               else { s with monitor_opacity := aset s.monitor_opacity p.1 s.default_opacity }
      if (aget s.monitor_enabled p.1).isSome then s
      else { s with monitor_enabled := aset s.monitor_enabled p.1 s.default_enabled })
    σ

/-- The focus-change step of `QuickDimmerApp._monitor_focus` in
`src/backend/main.py`: record the newly detected focus, then reconcile
(`self.display_manager.current_focused_display = focused_display;
self.display_manager.update_overlays(focused_display)`). -/
def apply_focus_change (σ : DMState) (f : Nat) : DMState :=
  update_overlays { σ with current_focused_display := some f } f

/-- An overlay handle is tracked for display `d`. -/
def hasOverlay (σ : DMState) (d : Nat) : Bool :=
  (aget σ.overlay_processes d).isSome

/-- Invariant I1 of the specification, over the known displays: an overlay
exists for `d` iff `d` is not the focused display and `d`'s effective enabled
setting is true. -/
def I1 (σ : DMState) : Prop :=
  ∀ d ∈ akeys σ.display_bounds,
    hasOverlay σ d = (decide (σ.current_focused_display ≠ some d) && enabledOf σ d)

instance (σ : DMState) : Decidable (I1 σ) := by
  unfold I1; infer_instance

/-- Reachability invariant: every pid that has died was actually allocated
(pids are handed out from `nextPid` upward, so dead pids lie below it). -/
def deadOK (σ : DMState) : Prop := ∀ p ∈ σ.deadPids, p < σ.nextPid

instance (σ : DMState) : Decidable (deadOK σ) := by
  unfold deadOK; infer_instance

/-! ## FocusDetector (`src/backend/focus_detector.py`)

The AppleScript subprocess itself is external; its parsed outcome — `None` on
process error, timeout or malformed response, otherwise
`(app_name, (x, y))` — is the `app_info` input below, exactly the value
`FocusDetector._get_focused_app_info` hands to its callers. -/

/-- The mutable state of `FocusDetector`: the cached primary-screen height
(`self.main_screen_height`, initially `None`). -/
structure FDState where
  main_screen_height : Option Int
deriving DecidableEq, Repr

/-- `FocusDetector._get_main_screen_height`: height of display 1 from the
cached bounds, else the first cached display's height, else `None`. -/
def get_main_screen_height (dm : DMState) : Option Int :=
  match aget dm.display_bounds 1 with
  | some b => some b.h
  | none =>
      match dm.display_bounds with
      | [] => none
      | (_, b) :: _ => some b.h

/-- `FocusDetector._convert_applescript_to_cocoa_y`: on first use look up and
cache the main screen height, then convert top-left-origin `y` to
`height - y`; with no height available return `y` unchanged.  Returns the
updated detector state and the converted coordinate. -/
def convert_applescript_to_cocoa_y (fd : FDState) (dm : DMState) (y : Int) :
    FDState × Int :=
  let cache := match fd.main_screen_height with
    | some h => some h
    | none => get_main_screen_height dm
  match cache with
  | some h => (⟨cache⟩, h - y)
  | none => (⟨cache⟩, y)

/-- The containment test of `FocusDetector._find_display_for_position`:
`left <= x < right and top <= y < bottom`. -/
def containsPoint (b : Bounds) (x y : Int) : Bool :=
  b.x ≤ x && x < b.x + b.w && b.y ≤ y && y < b.y + b.h

/-- `FocusDetector._find_display_for_position`: convert the y coordinate, then
return the first display in bounds-table iteration order containing the
point, defaulting to display 1. -/
def find_display_for_position (fd : FDState) (dm : DMState) (x y : Int) :
    FDState × Nat :=
  let c := convert_applescript_to_cocoa_y fd dm y
  match dm.display_bounds.find? (fun p => containsPoint p.2 x c.2) with
  | some p => (c.1, p.1)
  | none => (c.1, 1)

/-- `FocusDetector._get_fallback_display`: the first key of the bounds table
in iteration order, or 1 when no displays are known. -/
def get_fallback_display (dm : DMState) : Nat :=
  match dm.display_bounds with
  | [] => 1
  | (d, _) :: _ => d

/-- `FocusDetector.get_focused_display`: fallback when the OS focus query
failed (`app_info = none`), otherwise map the reported window position to a
display.  Total — the Python method catches every exception and falls back. -/
def get_focused_display (fd : FDState) (dm : DMState)
    (app_info : Option (String × Int × Int)) : FDState × Nat :=
  match app_info with
  | none => (fd, get_fallback_display dm)
  | some (_, x, y) => find_display_for_position fd dm x y

/-- The two-display scenario of the specification's test section: a primary
1920×1080 display and a secondary one to its right. -/
def demoScreens : List (Nat × Bounds) :=
  [(1, ⟨0, 0, 1920, 1080⟩), (2, ⟨1920, 0, 1920, 1080⟩)]

/-- The scenario state after startup enumeration and a first focus change to
display 1: display 2 carries the only overlay. -/
def demoState : DMState :=
  apply_focus_change (cache_display_info initState demoScreens) 1

/-- `demoState` after one `toggle_enabled` (dimming globally disabled). -/
def demoDisabled : DMState := (toggle_enabled demoState).2

/-- The fields of `DMState` that overlay creation/removal never touches. -/
def cfg (σ : DMState) :=
  (σ.display_bounds, σ.current_focused_display, σ.monitor_opacity,
   σ.monitor_enabled, σ.default_opacity, σ.default_enabled, σ.deadPids)

/-- The per-display postcondition the `update_overlays` loop establishes for a
display it has processed: the focused display is untracked, an enabled
non-focused display is tracked by a live process, a disabled one untracked. -/
def Cond (f d : Nat) (σ : DMState) : Prop :=
  if d = f then aget σ.overlay_processes d = none
  else if enabledOf σ d then
    ∃ r, aget σ.overlay_processes d = some r ∧ alive σ r.pid = true
  else aget σ.overlay_processes d = none

/-! ## Association-list lemmas -/

theorem aget_aset_self {α : Type} (l : List (Nat × α)) (k : Nat) (v : α) :
    aget (aset l k v) k = some v := by
  induction l with
  | nil => simp [aget, aset]
  | cons p t ih =>
      obtain ⟨k', v'⟩ := p
      by_cases h : k' = k <;> simp [aget, aset, h, ih]

theorem aget_aset_ne {α : Type} (l : List (Nat × α)) (k d : Nat) (v : α)
    (h : d ≠ k) : aget (aset l k v) d = aget l d := by
  have hkd : ¬ k = d := fun hh => h hh.symm
  induction l with
  | nil => simp [aget, aset, hkd]
  | cons p t ih =>
      obtain ⟨k', v'⟩ := p
      by_cases hk : k' = k
      · subst hk; simp [aget, aset, hkd]
      · by_cases hd : k' = d
        · subst hd; simp [aget, aset, hk]
        · simp [aget, aset, hk, hd, ih]

theorem aget_adel_self {α : Type} (l : List (Nat × α)) (k : Nat) :
    aget (adel l k) k = none := by
  induction l with
  | nil => simp [aget, adel]
  | cons p t ih =>
      obtain ⟨k', v'⟩ := p
      by_cases h : k' = k <;> simp [aget, adel, h, ih]

theorem aget_adel_ne {α : Type} (l : List (Nat × α)) (k d : Nat) (h : d ≠ k) :
    aget (adel l k) d = aget l d := by
  have hkd : ¬ k = d := fun hh => h hh.symm
  induction l with
  | nil => simp [adel]
  | cons p t ih =>
      obtain ⟨k', v'⟩ := p
      by_cases hk : k' = k
      · subst hk; simp [aget, adel, hkd, ih]
      · by_cases hd : k' = d
        · subst hd; simp [aget, adel, hk]
        · simp [aget, adel, hk, hd, ih]

theorem mem_akeys_iff_aget_isSome {α : Type} (l : List (Nat × α)) (d : Nat) :
    d ∈ akeys l ↔ (aget l d).isSome := by
  induction l with
  | nil => simp [akeys, aget]
  | cons p t ih =>
      obtain ⟨k', v'⟩ := p
      have hc : akeys ((k', v') :: t) = k' :: akeys t := rfl
      by_cases h : k' = d
      · subst h; simp [hc, aget]
      · have hdk : ¬ d = k' := fun hh => h hh.symm
        rw [hc, List.mem_cons]
        simp [aget, h, hdk, ih]

/-! ## Effect lemmas for the overlay operations -/

theorem cfg_spawn (σ : DMState) (d : Nat) : cfg (spawn_overlay σ d) = cfg σ := rfl

theorem cfg_create (σ : DMState) (d : Nat) :
    cfg (create_overlay σ d).2 = cfg σ := by
  unfold create_overlay
  cases h : aget σ.overlay_processes d <;>
    simp only [] <;> split <;> try split
  all_goals rfl

theorem cfg_remove (σ : DMState) (d : Nat) :
    cfg (remove_overlay σ d).2 = cfg σ := by
  unfold remove_overlay; split <;> rfl

theorem cfg_update_step (f : Nat) (σ : DMState) (d : Nat) :
    cfg (update_step f σ d) = cfg σ := by
  unfold update_step
  split
  · exact cfg_remove σ d
  · split
    · exact cfg_create σ d
    · exact cfg_remove σ d

theorem foldl_pres {β : Type} (g : DMState → β) (step : DMState → Nat → DMState)
    (hg : ∀ s a, g (step s a) = g s) :
    ∀ (l : List Nat) (σ : DMState), g (List.foldl step σ l) = g σ := by
  intro l
  induction l with
  | nil => intro σ; rfl
  | cons a t ih => intro σ; rw [List.foldl_cons, ih, hg]

theorem foldl_mono (g : DMState → Nat) (step : DMState → Nat → DMState)
    (hg : ∀ s a, g s ≤ g (step s a)) :
    ∀ (l : List Nat) (σ : DMState), g σ ≤ g (List.foldl step σ l) := by
  intro l
  induction l with
  | nil => intro σ; exact le_refl _
  | cons a t ih => intro σ; exact le_trans (hg σ a) (ih (step σ a))

theorem nextPid_le_create (σ : DMState) (d : Nat) :
    σ.nextPid ≤ (create_overlay σ d).2.nextPid := by
  unfold create_overlay spawn_overlay
  cases h : aget σ.overlay_processes d <;>
    simp only [] <;> split <;> try split
  all_goals simp

theorem nextPid_le_update_step (f : Nat) (σ : DMState) (d : Nat) :
    σ.nextPid ≤ (update_step f σ d).nextPid := by
  unfold update_step remove_overlay
  split
  · split <;> simp
  · split
    · exact nextPid_le_create σ d
    · split <;> simp

theorem remove_overlay_aget_self (σ : DMState) (d : Nat) :
    aget (remove_overlay σ d).2.overlay_processes d = none := by
  unfold remove_overlay
  split
  · exact aget_adel_self _ d
  · next h => simpa using h

theorem remove_overlay_aget_ne (σ : DMState) (d d' : Nat) (h : d' ≠ d) :
    aget (remove_overlay σ d).2.overlay_processes d' =
      aget σ.overlay_processes d' := by
  unfold remove_overlay
  split
  · exact aget_adel_ne _ d d' h
  · rfl

theorem create_overlay_aget_ne (σ : DMState) (d d' : Nat) (h : d' ≠ d) :
    aget (create_overlay σ d).2.overlay_processes d' =
      aget σ.overlay_processes d' := by
  unfold create_overlay spawn_overlay
  cases hc : aget σ.overlay_processes d
  · simp only []
    split
    · simp [aget_aset_ne _ d d' _ h]
    · rfl
  · simp only []
    split
    · rfl
    · split
      · simp [aget_aset_ne _ d d' _ h, aget_adel_ne _ d d' h]
      · simp [aget_adel_ne _ d d' h]

theorem update_step_aget_ne (f : Nat) (σ : DMState) (d d' : Nat) (h : d' ≠ d) :
    aget (update_step f σ d).overlay_processes d' =
      aget σ.overlay_processes d' := by
  unfold update_step
  split
  · exact remove_overlay_aget_ne σ d d' h
  · split
    · exact create_overlay_aget_ne σ d d' h
    · exact remove_overlay_aget_ne σ d d' h

theorem create_overlay_aget_self (σ : DMState) (d : Nat)
    (hb : (aget σ.display_bounds d).isSome) (hσ : deadOK σ) :
    ∃ r', aget (create_overlay σ d).2.overlay_processes d = some r' ∧
      alive σ r'.pid = true := by
  have hfresh : alive σ σ.nextPid = true := by
    have hm : σ.nextPid ∉ σ.deadPids := fun hm => absurd (hσ _ hm) (lt_irrefl _)
    simp [alive, hm]
  unfold create_overlay spawn_overlay
  cases hc : aget σ.overlay_processes d
  · simp only [hb, if_true]
    exact ⟨_, aget_aset_self _ d _, hfresh⟩
  · next r =>
      simp only []
      split
      · next ha => exact ⟨r, hc, ha⟩
      · simp only [hb, if_true]
        exact ⟨_, aget_aset_self _ d _, hfresh⟩

theorem fields_of_cfg_eq {σ τ : DMState} (h : cfg σ = cfg τ) :
    σ.display_bounds = τ.display_bounds ∧
    σ.current_focused_display = τ.current_focused_display ∧
    σ.monitor_opacity = τ.monitor_opacity ∧
    σ.monitor_enabled = τ.monitor_enabled ∧
    σ.default_opacity = τ.default_opacity ∧
    σ.default_enabled = τ.default_enabled ∧
    σ.deadPids = τ.deadPids := by
  simpa [cfg, Prod.ext_iff] using h

theorem enabledOf_of_cfg_eq {σ τ : DMState} (h : cfg σ = cfg τ) (d : Nat) :
    enabledOf σ d = enabledOf τ d := by
  obtain ⟨_, _, _, h4, _, h6, _⟩ := fields_of_cfg_eq h
  unfold enabledOf; rw [h4, h6]

theorem alive_of_cfg_eq {σ τ : DMState} (h : cfg σ = cfg τ) (p : Nat) :
    alive σ p = alive τ p := by
  obtain ⟨_, _, _, _, _, _, h7⟩ := fields_of_cfg_eq h
  unfold alive; rw [h7]

theorem deadOK_update_step (f : Nat) (σ : DMState) (d : Nat) (h : deadOK σ) :
    deadOK (update_step f σ d) := by
  intro p hp
  obtain ⟨_, _, _, _, _, _, h7⟩ := fields_of_cfg_eq (cfg_update_step f σ d)
  rw [h7] at hp
  exact lt_of_lt_of_le (h p hp) (nextPid_le_update_step f σ d)

theorem cond_step_self (f : Nat) (σ : DMState) (d : Nat)
    (hb : (aget σ.display_bounds d).isSome) (hσ : deadOK σ) :
    Cond f d (update_step f σ d) := by
  by_cases hf : d = f
  · subst hf
    have hs : update_step d σ d = (remove_overlay σ d).2 := by simp [update_step]
    rw [hs]
    unfold Cond
    rw [if_pos rfl]
    exact remove_overlay_aget_self σ d
  · by_cases he : enabledOf σ d = true
    · have hs : update_step f σ d = (create_overlay σ d).2 := by
        simp [update_step, hf, he]
      rw [hs]
      unfold Cond
      have hen : enabledOf (create_overlay σ d).2 d = enabledOf σ d :=
        enabledOf_of_cfg_eq (cfg_create σ d) d
      rw [if_neg hf, hen, if_pos he]
      obtain ⟨r, hr, ha⟩ := create_overlay_aget_self σ d hb hσ
      refine ⟨r, hr, ?_⟩
      rw [alive_of_cfg_eq (cfg_create σ d) r.pid]
      exact ha
    · have hs : update_step f σ d = (remove_overlay σ d).2 := by
        simp [update_step, hf, he]
      rw [hs]
      unfold Cond
      have hen : enabledOf (remove_overlay σ d).2 d = enabledOf σ d :=
        enabledOf_of_cfg_eq (cfg_remove σ d) d
      rw [if_neg hf, hen, if_neg he]
      exact remove_overlay_aget_self σ d

theorem cond_step_other (f : Nat) (σ : DMState) (d d' : Nat) (h : d' ≠ d)
    (hc : Cond f d' σ) : Cond f d' (update_step f σ d) := by
  unfold Cond at hc ⊢
  rw [update_step_aget_ne f σ d d' h,
      enabledOf_of_cfg_eq (cfg_update_step f σ d) d']
  by_cases hf : d' = f
  · simpa [hf] using hc
  · by_cases he : enabledOf σ d' = true
    · rw [if_neg hf, if_pos he] at hc ⊢
      obtain ⟨r, hr, ha⟩ := hc
      refine ⟨r, hr, ?_⟩
      rw [alive_of_cfg_eq (cfg_update_step f σ d) r.pid]
      exact ha
    · simpa [hf, he] using hc

theorem cond_foldl_pres (f a : Nat) :
    ∀ (t : List Nat) (σ : DMState), a ∉ t → Cond f a σ →
      Cond f a (List.foldl (update_step f) σ t) := by
  intro t
  induction t with
  | nil => intro σ _ hc; exact hc
  | cons b t ih =>
      intro σ ha hc
      rw [List.foldl_cons]
      exact ih _ (fun hm => ha (List.mem_cons_of_mem b hm))
        (cond_step_other f σ b a (fun he => ha (he ▸ List.mem_cons_self b t)) hc)

theorem cond_foldl (f : Nat) :
    ∀ (l : List Nat) (σ : DMState), deadOK σ →
      (∀ d ∈ l, (aget σ.display_bounds d).isSome) → l.Nodup →
      ∀ d ∈ l, Cond f d (List.foldl (update_step f) σ l) := by
  intro l
  induction l with
  | nil => intro σ _ _ _ d hd; exact absurd hd (List.not_mem_nil d)
  | cons a t ih =>
      intro σ hσ hb hnd d hd
      rw [List.foldl_cons]
      have hb1 : aget (update_step f σ a).display_bounds =
          aget σ.display_bounds := by
        obtain ⟨h1, _⟩ := fields_of_cfg_eq (cfg_update_step f σ a)
        rw [h1]
      rcases List.mem_cons.mp hd with rfl | hdt
      · exact cond_foldl_pres f d t _ (List.Nodup.not_mem hnd)
          (cond_step_self f σ d (hb d (List.mem_cons_self d t)) hσ)
      · exact ih (update_step f σ a) (deadOK_update_step f σ a hσ)
          (fun d' hd' => by rw [hb1]; exact hb d' (List.mem_cons_of_mem a hd'))
          (List.Nodup.of_cons hnd) d hdt

theorem update_step_noop (f : Nat) (σ : DMState) (d : Nat) (hc : Cond f d σ) :
    update_step f σ d = σ := by
  unfold Cond at hc
  unfold update_step
  by_cases hf : d = f
  · simp only [hf, if_true] at hc ⊢
    simp [remove_overlay, hc]
  · by_cases he : enabledOf σ d = true
    · simp only [hf, if_false, he, if_true] at hc ⊢
      obtain ⟨r, hr, ha⟩ := hc
      simp [create_overlay, hr, ha]
    · have he' : enabledOf σ d = false := by
        cases hq : enabledOf σ d
        · rfl
        · exact absurd hq he
      simp only [hf, if_false, he', Bool.false_eq_true] at hc ⊢
      simp [remove_overlay, hc]

theorem foldl_update_noop (f : Nat) :
    ∀ (l : List Nat) (σ : DMState), (∀ d ∈ l, Cond f d σ) →
      List.foldl (update_step f) σ l = σ := by
  intro l
  induction l with
  | nil => intro σ _; rfl
  | cons a t ih =>
      intro σ hc
      rw [List.foldl_cons, update_step_noop f σ a (hc a (List.mem_cons_self a t))]
      exact ih σ (fun d hd => hc d (List.mem_cons_of_mem a hd))

theorem update_overlays_def (σ : DMState) (f : Nat) :
    update_overlays σ f = (akeys σ.display_bounds).foldl (update_step f) σ := rfl

theorem cfg_update_overlays (σ : DMState) (f : Nat) :
    cfg (update_overlays σ f) = cfg σ :=
  foldl_pres cfg (update_step f) (fun s a => cfg_update_step f s a) _ σ

theorem foldl_pred (P : DMState → Prop) (step : DMState → Nat → DMState)
    (hstep : ∀ s a, P s → P (step s a)) :
    ∀ (l : List Nat) (σ : DMState), P σ → P (List.foldl step σ l) := by
  intro l
  induction l with
  | nil => intro σ h; exact h
  | cons a t ih => intro σ h; exact ih (step σ a) (hstep σ a h)

theorem deadOK_update_overlays (σ : DMState) (f : Nat) (h : deadOK σ) :
    deadOK (update_overlays σ f) :=
  foldl_pred deadOK (update_step f) (fun s a => deadOK_update_step f s a) _ σ h

/-- After `update_overlays` is run with the recorded focus, invariant I1 holds
for every known display. -/
theorem I1_update_overlays (σ : DMState) (f : Nat)
    (hf : σ.current_focused_display = some f) (hσ : deadOK σ)
    (hnd : (akeys σ.display_bounds).Nodup) : I1 (update_overlays σ f) := by
  intro d hd
  obtain ⟨h1, h2, _, _, _, _, _⟩ := fields_of_cfg_eq (cfg_update_overlays σ f)
  rw [h1] at hd
  have hcond := cond_foldl f (akeys σ.display_bounds) σ hσ
    (fun d' hd' => (mem_akeys_iff_aget_isSome _ d').mp hd') hnd d hd
  rw [← update_overlays_def] at hcond
  unfold Cond at hcond
  unfold hasOverlay
  rw [h2, hf]
  by_cases hdf : d = f
  · subst hdf
    rw [if_pos rfl] at hcond
    simp [hcond]
  · rw [if_neg hdf] at hcond
    have hfd : ¬ f = d := fun hh => hdf hh.symm
    by_cases he : enabledOf (update_overlays σ f) d = true
    · rw [if_pos he] at hcond
      obtain ⟨r, hr, _⟩ := hcond
      simp [hr, he, hfd]
    · have he' : enabledOf (update_overlays σ f) d = false := by
        cases hq : enabledOf (update_overlays σ f) d
        · rfl
        · exact absurd hq he
      rw [if_neg he] at hcond
      simp [hcond, he']

/-- Re-running `update_overlays` with the same focus is a no-op: same overlay
table, same pid counter, same spawn/kill counters. -/
theorem update_overlays_noop_again (σ : DMState) (f : Nat) (hσ : deadOK σ)
    (hnd : (akeys σ.display_bounds).Nodup) :
    update_overlays (update_overlays σ f) f = update_overlays σ f := by
  obtain ⟨h1, _⟩ := fields_of_cfg_eq (cfg_update_overlays σ f)
  have hcond := cond_foldl f (akeys σ.display_bounds) σ hσ
    (fun d' hd' => (mem_akeys_iff_aget_isSome _ d').mp hd') hnd
  rw [update_overlays_def (update_overlays σ f) f, h1]
  exact foldl_update_noop f _ _ (fun d hd => by
    have := hcond d hd
    rwa [← update_overlays_def] at this)

theorem create_overlay_hasOverlay (σ : DMState) (d : Nat)
    (hb : (aget σ.display_bounds d).isSome) :
    hasOverlay (create_overlay σ d).2 d = true := by
  unfold hasOverlay create_overlay spawn_overlay
  cases hc : aget σ.overlay_processes d
  · simp only [hb, if_true]
    simp [aget_aset_self]
  · simp only []
    split
    · simp [hc]
    · simp only [hb, if_true]
      simp [aget_aset_self]

theorem remove_overlay_monitor_enabled (σ : DMState) (d : Nat) :
    (remove_overlay σ d).2.monitor_enabled = σ.monitor_enabled := by
  obtain ⟨_, _, _, h4, _⟩ := fields_of_cfg_eq (cfg_remove σ d)
  exact h4

theorem create_overlay_monitor_enabled (σ : DMState) (d : Nat) :
    (create_overlay σ d).2.monitor_enabled = σ.monitor_enabled := by
  obtain ⟨_, _, _, h4, _⟩ := fields_of_cfg_eq (cfg_create σ d)
  exact h4

theorem set_monitor_enabled_unknown (σ : DMState) (d : Nat) (b : Bool)
    (hb : aget σ.display_bounds d = none) :
    set_monitor_enabled σ d b = (false, σ) := by
  simp [set_monitor_enabled, hb]

theorem set_monitor_enabled_false_eq (σ : DMState) (d : Nat)
    (hb : (aget σ.display_bounds d).isSome) :
    set_monitor_enabled σ d false =
      (true, (remove_overlay
        { σ with monitor_enabled := aset σ.monitor_enabled d false } d).2) := by
  simp [set_monitor_enabled, hb]

theorem set_monitor_enabled_true_focused (σ : DMState) (d : Nat)
    (hb : (aget σ.display_bounds d).isSome)
    (hf : σ.current_focused_display = some d) :
    set_monitor_enabled σ d true =
      (true, { σ with monitor_enabled := aset σ.monitor_enabled d true }) := by
  simp [set_monitor_enabled, hb, hf]

theorem set_monitor_enabled_true_unfocused (σ : DMState) (d : Nat)
    (hb : (aget σ.display_bounds d).isSome)
    (hf : ¬ σ.current_focused_display = some d) :
    set_monitor_enabled σ d true =
      (true, (create_overlay
        { σ with monitor_enabled := aset σ.monitor_enabled d true } d).2) := by
  simp [set_monitor_enabled, hb, hf]

/-- `set_monitor_enabled` preserves invariant I1 (claim C1, enabled-toggle
case): the recorded setting and the overlay action stay in sync. -/
theorem I1_set_monitor_enabled (σ : DMState) (d : Nat) (b : Bool) (h : I1 σ) :
    I1 (set_monitor_enabled σ d b).2 := by
  by_cases hb : (aget σ.display_bounds d).isSome
  swap
  · have hn : aget σ.display_bounds d = none := by
      cases hq : aget σ.display_bounds d
      · rfl
      · rw [hq] at hb; exact absurd rfl hb
    rw [set_monitor_enabled_unknown σ d b hn]
    exact h
  · cases b
    · -- disabling: remove the overlay
      rw [set_monitor_enabled_false_eq σ d hb]
      intro d' hd'
      have hcfgr := fields_of_cfg_eq
        (cfg_remove { σ with monitor_enabled := aset σ.monitor_enabled d false } d)
      obtain ⟨hr1, hr2, _, hr4, _, hr6, _⟩ := hcfgr
      rw [hr1] at hd'
      by_cases hdd : d' = d
      · subst hdd
        unfold hasOverlay
        rw [remove_overlay_aget_self]
        unfold enabledOf
        rw [hr4, hr6]
        simp [aget_aset_self]
      · unfold hasOverlay
        rw [remove_overlay_aget_ne _ _ _ hdd]
        unfold enabledOf
        rw [hr4, hr6]
        simp only []
        rw [aget_aset_ne _ _ _ _ hdd, hr2]
        exact h d' hd'
    · -- enabling
      by_cases hf : σ.current_focused_display = some d
      · -- focused: no overlay action
        rw [set_monitor_enabled_true_focused σ d hb hf]
        intro d' hd'
        simp only [akeys] at hd'
        by_cases hdd : d' = d
        · subst hdd
          have hI := h d' hd'
          unfold hasOverlay enabledOf at hI ⊢
          simp only []
          rw [hI, aget_aset_self, hf]
          simp
        · have hI := h d' hd'
          unfold hasOverlay enabledOf at hI ⊢
          simp only []
          rw [aget_aset_ne _ _ _ _ hdd]
          exact hI
      · -- not focused: create the overlay
        rw [set_monitor_enabled_true_unfocused σ d hb hf]
        intro d' hd'
        have hcfgc := fields_of_cfg_eq
          (cfg_create { σ with monitor_enabled := aset σ.monitor_enabled d true } d)
        obtain ⟨hc1, hc2, _, hc4, _, hc6, _⟩ := hcfgc
        rw [hc1] at hd'
        by_cases hdd : d' = d
        · subst hdd
          have hb1 : (aget ({ σ with
              monitor_enabled := aset σ.monitor_enabled d' true} :
              DMState).display_bounds d').isSome := hb
          rw [create_overlay_hasOverlay _ _ hb1]
          unfold enabledOf
          rw [hc4, hc6]
          simp only []
          rw [hc2]
          simp [aget_aset_self, hf]
        · unfold hasOverlay
          rw [create_overlay_aget_ne _ _ _ hdd]
          unfold enabledOf
          rw [hc4, hc6]
          simp only []
          rw [aget_aset_ne _ _ _ _ hdd, hc2]
          exact h d' hd'

/-! ## The remove-then-recreate step of `set_opacity` -/

theorem opacityOf_of_cfg_eq {σ τ : DMState} (h : cfg σ = cfg τ) (d : Nat) :
    opacityOf σ d = opacityOf τ d := by
  obtain ⟨_, _, h3, _, h5, _⟩ := fields_of_cfg_eq h
  unfold opacityOf; rw [h3, h5]

theorem cfg_reopacity_step (s : DMState) (d : Nat) :
    cfg (reopacity_step s d) = cfg s := by
  unfold reopacity_step; rw [cfg_create, cfg_remove]

theorem reopacity_step_aget_ne (s : DMState) (d d' : Nat) (h : d' ≠ d) :
    aget (reopacity_step s d).overlay_processes d' =
      aget s.overlay_processes d' := by
  unfold reopacity_step
  rw [create_overlay_aget_ne _ _ _ h, remove_overlay_aget_ne _ _ _ h]

theorem remove_overlay_nextPid (σ : DMState) (d : Nat) :
    (remove_overlay σ d).2.nextPid = σ.nextPid := by
  unfold remove_overlay; split <;> rfl

theorem create_overlay_absent (σ : DMState) (d : Nat)
    (hn : aget σ.overlay_processes d = none)
    (hb : (aget σ.display_bounds d).isSome) :
    create_overlay σ d = (true, spawn_overlay σ d) := by
  unfold create_overlay
  rw [hn]
  simp [hb]

theorem reopacity_step_aget_self (s : DMState) (d : Nat)
    (hb : (aget s.display_bounds d).isSome) :
    aget (reopacity_step s d).overlay_processes d =
      some ⟨s.nextPid, opacityOf s d⟩ := by
  unfold reopacity_step
  have hb' : (aget (remove_overlay s d).2.display_bounds d).isSome := by
    obtain ⟨h1, _⟩ := fields_of_cfg_eq (cfg_remove s d); rw [h1]; exact hb
  rw [create_overlay_absent _ _ (remove_overlay_aget_self s d) hb']
  unfold spawn_overlay
  simp only [aget_aset_self]
  rw [remove_overlay_nextPid, opacityOf_of_cfg_eq (cfg_remove s d) d]

theorem remove_overlay_present (σ : DMState) (d : Nat)
    (h : (aget σ.overlay_processes d).isSome) :
    remove_overlay σ d =
      (true, { σ with overlay_processes := adel σ.overlay_processes d
                      killCount := σ.killCount + 1 }) := by
  simp [remove_overlay, h]

theorem reopacity_step_counts (s : DMState) (d : Nat)
    (hov : hasOverlay s d = true) (hb : (aget s.display_bounds d).isSome) :
    (reopacity_step s d).spawnCount = s.spawnCount + 1 ∧
    (reopacity_step s d).killCount = s.killCount + 1 := by
  unfold reopacity_step
  unfold hasOverlay at hov
  have h1 : (remove_overlay s d).2.killCount = s.killCount + 1 := by
    simp [remove_overlay, hov]
  have h2 : (remove_overlay s d).2.spawnCount = s.spawnCount := by
    unfold remove_overlay; split <;> rfl
  have hb' : (aget (remove_overlay s d).2.display_bounds d).isSome := by
    obtain ⟨hh, _⟩ := fields_of_cfg_eq (cfg_remove s d); rw [hh]; exact hb
  rw [create_overlay_absent _ _ (remove_overlay_aget_self s d) hb']
  refine ⟨?_, ?_⟩
  · show (spawn_overlay (remove_overlay s d).2 d).spawnCount = s.spawnCount + 1
    unfold spawn_overlay
    simp [h2]
  · show (spawn_overlay (remove_overlay s d).2 d).killCount = s.killCount + 1
    unfold spawn_overlay
    simp [h1]

theorem reopacity_fold_aget_not_mem :
    ∀ (l : List Nat) (s : DMState) (d' : Nat), d' ∉ l →
      aget (List.foldl reopacity_step s l).overlay_processes d' =
        aget s.overlay_processes d' := by
  intro l
  induction l with
  | nil => intro s d' _; rfl
  | cons a t ih =>
      intro s d' hd'
      rw [List.foldl_cons,
          ih _ d' (fun hm => hd' (List.mem_cons_of_mem a hm)),
          reopacity_step_aget_ne s a d'
            (fun he => hd' (he ▸ List.mem_cons_self a t))]

theorem cfg_reopacity_fold (l : List Nat) (s : DMState) :
    cfg (List.foldl reopacity_step s l) = cfg s :=
  foldl_pres cfg reopacity_step cfg_reopacity_step l s

theorem reopacity_fold_aget_mem :
    ∀ (l : List Nat) (s : DMState) (d' : Nat), l.Nodup →
      (aget s.display_bounds d').isSome → d' ∈ l →
      ∃ q, aget (List.foldl reopacity_step s l).overlay_processes d' = some q ∧
        q.opacity = opacityOf s d' := by
  intro l
  induction l with
  | nil => intro s d' _ _ hd'; exact absurd hd' (List.not_mem_nil d')
  | cons a t ih =>
      intro s d' hnd hb hd'
      rw [List.foldl_cons]
      by_cases hdt : d' ∈ t
      · have hb1 : (aget (reopacity_step s a).display_bounds d').isSome := by
          obtain ⟨h1, _⟩ := fields_of_cfg_eq (cfg_reopacity_step s a)
          rw [h1]; exact hb
        obtain ⟨q, hq, hop⟩ := ih (reopacity_step s a) d'
          (List.Nodup.of_cons hnd) hb1 hdt
        exact ⟨q, hq, by
          rw [hop, opacityOf_of_cfg_eq (cfg_reopacity_step s a) d']⟩
      · have hda : d' = a := by
          rcases List.mem_cons.mp hd' with h | h
          · exact h
          · exact absurd h hdt
        subst hda
        rw [reopacity_fold_aget_not_mem t _ d' hdt,
            reopacity_step_aget_self s d' hb]
        exact ⟨_, rfl, rfl⟩

theorem reopacity_fold_hasOverlay_mem :
    ∀ (l : List Nat) (s : DMState) (d' : Nat),
      (aget s.display_bounds d').isSome → d' ∈ l →
      hasOverlay (List.foldl reopacity_step s l) d' = true := by
  intro l
  induction l with
  | nil => intro s d' _ hd'; exact absurd hd' (List.not_mem_nil d')
  | cons a t ih =>
      intro s d' hb hd'
      rw [List.foldl_cons]
      by_cases hdt : d' ∈ t
      · have hb1 : (aget (reopacity_step s a).display_bounds d').isSome := by
          obtain ⟨h1, _⟩ := fields_of_cfg_eq (cfg_reopacity_step s a)
          rw [h1]; exact hb
        exact ih _ d' hb1 hdt
      · have hda : d' = a := by
          rcases List.mem_cons.mp hd' with h | h
          · exact h
          · exact absurd h hdt
        subst hda
        unfold hasOverlay
        rw [reopacity_fold_aget_not_mem t _ d' hdt,
            reopacity_step_aget_self s d' hb]
        rfl

theorem reopacity_fold_counts :
    ∀ (l : List Nat) (s : DMState), l.Nodup →
      (∀ e ∈ l, (aget s.display_bounds e).isSome ∧ hasOverlay s e = true) →
      (List.foldl reopacity_step s l).spawnCount = s.spawnCount + l.length ∧
      (List.foldl reopacity_step s l).killCount = s.killCount + l.length := by
  intro l
  induction l with
  | nil => intro s _ _; exact ⟨rfl, rfl⟩
  | cons a t ih =>
      intro s hnd he
      rw [List.foldl_cons]
      obtain ⟨hba, hova⟩ := he a (List.mem_cons_self a t)
      obtain ⟨hs1, hk1⟩ := reopacity_step_counts s a hova hba
      have he1 : ∀ e ∈ t, (aget (reopacity_step s a).display_bounds e).isSome ∧
          hasOverlay (reopacity_step s a) e = true := by
        intro e het
        have hea : e ≠ a := fun hh => (List.Nodup.not_mem hnd) (hh ▸ het)
        obtain ⟨h1, _⟩ := fields_of_cfg_eq (cfg_reopacity_step s a)
        refine ⟨by rw [h1]; exact (he e (List.mem_cons_of_mem a het)).1, ?_⟩
        unfold hasOverlay
        rw [reopacity_step_aget_ne s a e hea]
        exact (he e (List.mem_cons_of_mem a het)).2
      obtain ⟨ihs, ihk⟩ := ih (reopacity_step s a) (List.Nodup.of_cons hnd) he1
      constructor
      · rw [ihs, hs1]; simp [List.length_cons]; ring
      · rw [ihk, hk1]; simp [List.length_cons]; ring

/-! ## The opacity-store fold of global `set_opacity` -/

theorem store_fold_fields (v : ℚ) (l : List Nat) (s : DMState) :
    (List.foldl (store_opacity_step v) s l).display_bounds = s.display_bounds ∧
    (List.foldl (store_opacity_step v) s l).current_focused_display =
      s.current_focused_display ∧
    (List.foldl (store_opacity_step v) s l).monitor_enabled = s.monitor_enabled ∧
    (List.foldl (store_opacity_step v) s l).default_enabled = s.default_enabled ∧
    (List.foldl (store_opacity_step v) s l).default_opacity = s.default_opacity ∧
    (List.foldl (store_opacity_step v) s l).overlay_processes =
      s.overlay_processes ∧
    (List.foldl (store_opacity_step v) s l).deadPids = s.deadPids ∧
    (List.foldl (store_opacity_step v) s l).nextPid = s.nextPid ∧
    (List.foldl (store_opacity_step v) s l).spawnCount = s.spawnCount ∧
    (List.foldl (store_opacity_step v) s l).killCount = s.killCount :=
  ⟨foldl_pres (fun s => s.display_bounds) (store_opacity_step v) (fun _ _ => rfl) l s,
   foldl_pres (fun s => s.current_focused_display) (store_opacity_step v) (fun _ _ => rfl) l s,
   foldl_pres (fun s => s.monitor_enabled) (store_opacity_step v) (fun _ _ => rfl) l s,
   foldl_pres (fun s => s.default_enabled) (store_opacity_step v) (fun _ _ => rfl) l s,
   foldl_pres (fun s => s.default_opacity) (store_opacity_step v) (fun _ _ => rfl) l s,
   foldl_pres (fun s => s.overlay_processes) (store_opacity_step v) (fun _ _ => rfl) l s,
   foldl_pres (fun s => s.deadPids) (store_opacity_step v) (fun _ _ => rfl) l s,
   foldl_pres (fun s => s.nextPid) (store_opacity_step v) (fun _ _ => rfl) l s,
   foldl_pres (fun s => s.spawnCount) (store_opacity_step v) (fun _ _ => rfl) l s,
   foldl_pres (fun s => s.killCount) (store_opacity_step v) (fun _ _ => rfl) l s⟩

theorem store_fold_aget_not_mem (v : ℚ) :
    ∀ (l : List Nat) (s : DMState) (d : Nat), d ∉ l →
      aget (List.foldl (store_opacity_step v) s l).monitor_opacity d =
        aget s.monitor_opacity d := by
  intro l
  induction l with
  | nil => intro s d _; rfl
  | cons a t ih =>
      intro s d hd
      rw [List.foldl_cons, ih _ d (fun hm => hd (List.mem_cons_of_mem a hm))]
      exact aget_aset_ne _ a d v (fun he => hd (he ▸ List.mem_cons_self a t))

theorem store_fold_aget_mem (v : ℚ) :
    ∀ (l : List Nat) (s : DMState) (d : Nat), d ∈ l →
      aget (List.foldl (store_opacity_step v) s l).monitor_opacity d = some v := by
  intro l
  induction l with
  | nil => intro s d hd; exact absurd hd (List.not_mem_nil d)
  | cons a t ih =>
      intro s d hd
      rw [List.foldl_cons]
      by_cases hdt : d ∈ t
      · exact ih _ d hdt
      · have hda : d = a := by
          rcases List.mem_cons.mp hd with h | h
          · exact h
          · exact absurd h hdt
        subst hda
        rw [store_fold_aget_not_mem v t _ d hdt]
        exact aget_aset_self _ d v

theorem enabledOf_congr {σ τ : DMState} (h1 : τ.monitor_enabled = σ.monitor_enabled)
    (h2 : τ.default_enabled = σ.default_enabled) (d : Nat) :
    enabledOf τ d = enabledOf σ d := by
  unfold enabledOf; rw [h1, h2]

/-- Pointwise transfer of invariant I1 between states that agree on bounds,
focus, and (per known display) overlay presence and effective enablement. -/
theorem I1_of_eqs {σ τ : DMState} (h : I1 σ)
    (hb : τ.display_bounds = σ.display_bounds)
    (hc : τ.current_focused_display = σ.current_focused_display)
    (hpt : ∀ d ∈ akeys σ.display_bounds,
      hasOverlay τ d = hasOverlay σ d ∧ enabledOf τ d = enabledOf σ d) :
    I1 τ := by
  intro d hd
  rw [hb] at hd
  obtain ⟨hov, hen⟩ := hpt d hd
  rw [hov, hen, hc]
  exact h d hd

/-- `set_opacity` (either scope) preserves invariant I1: overlay presence and
enablement are untouched; only stored opacity values change. -/
theorem I1_set_opacity (σ : DMState) (v : ℚ) (od : Option Nat) (h : I1 σ) :
    I1 (set_opacity σ v od).2 := by
  by_cases hrange : 0 ≤ v ∧ v ≤ 1
  swap
  · have hs : set_opacity σ v od = (false, σ) := by
      unfold set_opacity; rw [if_pos hrange]
    rw [hs]; exact h
  · cases od with
    | some d =>
        by_cases hb : (aget σ.display_bounds d).isSome
        swap
        · have hs : set_opacity σ v (some d) = (false, σ) := by
            unfold set_opacity
            rw [if_neg (not_not_intro hrange)]
            simp [hb]
          rw [hs]; exact h
        · by_cases hov : (aget σ.overlay_processes d).isSome
          · have hs : set_opacity σ v (some d) = (true,
                reopacity_step { σ with
                  monitor_opacity := aset σ.monitor_opacity d v } d) := by
              unfold set_opacity
              rw [if_neg (not_not_intro hrange)]
              simp [hb, hov]
            rw [hs]
            obtain ⟨h1, h2, _, h4, _, h6, _⟩ := fields_of_cfg_eq
              (cfg_reopacity_step { σ with
                monitor_opacity := aset σ.monitor_opacity d v } d)
            refine I1_of_eqs h h1 h2 ?_
            intro d' hd'
            constructor
            · by_cases hdd : d' = d
              · subst hdd
                unfold hasOverlay
                have hb1 : (aget ({ σ with
                    monitor_opacity := aset σ.monitor_opacity d' v } :
                    DMState).display_bounds d').isSome := hb
                rw [reopacity_step_aget_self _ _ hb1, hov]
                rfl
              · unfold hasOverlay
                rw [reopacity_step_aget_ne _ _ _ hdd]
              -- the σ₁ overlay table is σ's
            · exact enabledOf_congr h4 h6 d'
          · have hs : set_opacity σ v (some d) = (true,
                { σ with monitor_opacity := aset σ.monitor_opacity d v }) := by
              unfold set_opacity
              rw [if_neg (not_not_intro hrange)]
              simp [hb, hov]
            rw [hs]
            refine I1_of_eqs h rfl rfl ?_
            intro d' _
            exact ⟨rfl, rfl⟩
    | none =>
        have hs : set_opacity σ v none = (true,
            (akeys ((akeys ({ σ with default_opacity := v } :
              DMState).display_bounds).foldl (store_opacity_step v)
              { σ with default_opacity := v }).overlay_processes).foldl
              reopacity_step
              ((akeys ({ σ with default_opacity := v } :
                DMState).display_bounds).foldl (store_opacity_step v)
                { σ with default_opacity := v })) := by
          unfold set_opacity
          rw [if_neg (not_not_intro hrange)]
        rw [hs]
        obtain ⟨hf1, hf2, hf3, hf4, _, hf6, _⟩ :=
          store_fold_fields v (akeys ({ σ with default_opacity := v} :
            DMState).display_bounds) { σ with default_opacity := v }
        obtain ⟨hr1, hr2, _, hr4, _, hr6, _⟩ := fields_of_cfg_eq
          (cfg_reopacity_fold _ _)
        refine I1_of_eqs h (by rw [hr1, hf1]) (by rw [hr2, hf2]) ?_
        intro d hd
        constructor
        · by_cases hdov : d ∈ akeys ((akeys ({ σ with default_opacity := v} :
              DMState).display_bounds).foldl (store_opacity_step v)
              { σ with default_opacity := v }).overlay_processes
          · have hbd : (aget ((akeys ({ σ with default_opacity := v} :
                DMState).display_bounds).foldl (store_opacity_step v)
                { σ with default_opacity := v }).display_bounds d).isSome := by
              rw [hf1]
              exact (mem_akeys_iff_aget_isSome _ d).mp hd
            rw [reopacity_fold_hasOverlay_mem _ _ d hbd hdov]
            have : hasOverlay σ d = true := by
              rw [hf6] at hdov
              unfold hasOverlay
              exact (mem_akeys_iff_aget_isSome _ d).mp hdov
            rw [this]
          · unfold hasOverlay
            rw [reopacity_fold_aget_not_mem _ _ d hdov, hf6]
        · refine enabledOf_congr ?_ ?_ d
          · rw [hr4, hf3]
          · rw [hr6, hf4]

/-! ## The disable branch of `toggle_enabled` -/

theorem mem_adel {α : Type} (l : List (Nat × α)) (k : Nat) (p : Nat × α) :
    p ∈ adel l k ↔ p ∈ l ∧ p.1 ≠ k := by
  induction l with
  | nil => simp [adel]
  | cons q t ih =>
      obtain ⟨k', v'⟩ := q
      by_cases h : k' = k
      · have hstep : adel ((k', v') :: t) k = adel t k := by simp [adel, h]
        rw [hstep, ih, List.mem_cons]
        constructor
        · rintro ⟨hp, hk⟩; exact ⟨Or.inr hp, hk⟩
        · rintro ⟨hp | hp, hk⟩
          · exact absurd (by rw [hp]; exact h) hk
          · exact ⟨hp, hk⟩
      · have hstep : adel ((k', v') :: t) k = (k', v') :: adel t k := by
          simp [adel, h]
        rw [hstep, List.mem_cons, List.mem_cons, ih]
        constructor
        · rintro (hp | ⟨hp, hk⟩)
          · exact ⟨Or.inl hp, by rw [hp]; exact h⟩
          · exact ⟨Or.inr hp, hk⟩
        · rintro ⟨hp | hp, hk⟩
          · exact Or.inl hp
          · exact Or.inr ⟨hp, hk⟩

theorem aget_eq_none_iff {α : Type} (l : List (Nat × α)) (k : Nat) :
    aget l k = none ↔ ∀ p ∈ l, p.1 ≠ k := by
  induction l with
  | nil => simp [aget]
  | cons q t ih =>
      obtain ⟨k', v'⟩ := q
      by_cases h : k' = k
      · subst h
        simp [aget]
      · simp [aget, h, ih]

theorem remove_step_keys (s : DMState) (a : Nat) :
    ∀ p ∈ (remove_step s a).overlay_processes,
      p ∈ s.overlay_processes ∧ p.1 ≠ a := by
  unfold remove_step remove_overlay
  split
  · intro p hp
    exact (mem_adel s.overlay_processes a p).mp hp
  · next h =>
      intro p hp
      refine ⟨hp, ?_⟩
      have hn : aget s.overlay_processes a = none := by
        cases hq : aget s.overlay_processes a
        · rfl
        · rw [hq] at h; exact absurd rfl h
      exact (aget_eq_none_iff s.overlay_processes a).mp hn p hp

theorem remove_fold_clears :
    ∀ (ks : List Nat) (s : DMState),
      (∀ p ∈ s.overlay_processes, p.1 ∈ ks) →
      (List.foldl remove_step s ks).overlay_processes = [] := by
  intro ks
  induction ks with
  | nil =>
      intro s h
      cases hl : s.overlay_processes with
      | nil => exact hl
      | cons p t =>
          exact absurd (h p (by rw [hl]; exact List.mem_cons_self p t))
            (List.not_mem_nil p.1)
  | cons a t ih =>
      intro s h
      rw [List.foldl_cons]
      refine ih _ ?_
      intro p hp
      obtain ⟨hps, hpa⟩ := remove_step_keys s a p hp
      rcases List.mem_cons.mp (h p hps) with he | ht
      · exact absurd he hpa
      · exact ht

theorem cfg_remove_step (s : DMState) (a : Nat) :
    cfg (remove_step s a) = cfg s := cfg_remove s a

theorem cfg_remove_fold (ks : List Nat) (s : DMState) :
    cfg (List.foldl remove_step s ks) = cfg s :=
  foldl_pres cfg remove_step cfg_remove_step ks s

theorem toggle_enabled_off_pair (σ : DMState) (h : σ.default_enabled = true) :
    toggle_enabled σ =
      ((List.foldl remove_step { σ with default_enabled := false }
          (akeys σ.overlay_processes)).default_enabled,
       List.foldl remove_step { σ with default_enabled := false }
          (akeys σ.overlay_processes)) := by
  unfold toggle_enabled
  rw [h]
  simp

theorem remove_fold_default_enabled (ks : List Nat) (s : DMState) :
    (List.foldl remove_step s ks).default_enabled = s.default_enabled :=
  foldl_pres (fun s => s.default_enabled) remove_step
    (fun s a => by
      obtain ⟨_, _, _, _, _, h6, _⟩ := fields_of_cfg_eq (cfg_remove_step s a)
      exact h6) ks s

theorem toggle_enabled_off_state (σ : DMState) (h : σ.default_enabled = true) :
    (toggle_enabled σ).2 =
      List.foldl remove_step { σ with default_enabled := false }
        (akeys σ.overlay_processes) := by
  rw [toggle_enabled_off_pair σ h]

theorem toggle_enabled_off_ret (σ : DMState) (h : σ.default_enabled = true) :
    (toggle_enabled σ).1 = false := by
  rw [toggle_enabled_off_pair σ h]
  exact remove_fold_default_enabled _ _

theorem update_overlays_default_enabled (σ : DMState) (f : Nat) :
    (update_overlays σ f).default_enabled = σ.default_enabled := by
  obtain ⟨_, _, _, _, _, h6, _⟩ := fields_of_cfg_eq (cfg_update_overlays σ f)
  exact h6

theorem toggle_enabled_on_pair (σ : DMState) (f : Nat)
    (h : σ.default_enabled = false)
    (hf : σ.current_focused_display = some f) :
    toggle_enabled σ =
      ((update_overlays { σ with default_enabled := true } f).default_enabled,
       update_overlays { σ with default_enabled := true } f) := by
  unfold toggle_enabled
  rw [h]
  have hcond : ¬ ¬ (({ σ with default_enabled := !false } :
      DMState).default_enabled = true) := by simp
  rw [if_neg hcond, hf]
  simp

theorem toggle_enabled_on_state (σ : DMState) (f : Nat)
    (h : σ.default_enabled = false)
    (hf : σ.current_focused_display = some f) :
    (toggle_enabled σ).2 = update_overlays { σ with default_enabled := true } f := by
  rw [toggle_enabled_on_pair σ f h hf]

theorem toggle_enabled_on_ret (σ : DMState) (f : Nat)
    (h : σ.default_enabled = false)
    (hf : σ.current_focused_display = some f) :
    (toggle_enabled σ).1 = true := by
  rw [toggle_enabled_on_pair σ f h hf]
  exact update_overlays_default_enabled _ f

theorem toggle_enabled_on_none (σ : DMState)
    (h : σ.default_enabled = false)
    (hn : σ.current_focused_display = none) :
    toggle_enabled σ = (true, { σ with default_enabled := true }) := by
  unfold toggle_enabled
  rw [h]
  have hcond : ¬ ¬ (({ σ with default_enabled := !false } :
      DMState).default_enabled = true) := by simp
  rw [if_neg hcond, hn]
  simp

/-- `toggle_enabled` when the new default is `false` empties the overlay
table. -/
theorem toggle_enabled_off_clears (σ : DMState) (h : σ.default_enabled = true) :
    (toggle_enabled σ).2.overlay_processes = [] := by
  rw [toggle_enabled_off_state σ h]
  refine remove_fold_clears _ _ ?_
  intro p hp
  exact List.mem_map_of_mem Prod.fst hp

/-- `toggle_enabled` flips the default flag and returns the new value. -/
theorem toggle_enabled_flips (σ : DMState) :
    (toggle_enabled σ).1 = !σ.default_enabled ∧
    (toggle_enabled σ).2.default_enabled = !σ.default_enabled := by
  cases h : σ.default_enabled
  · cases hf : σ.current_focused_display with
    | some f =>
        refine ⟨toggle_enabled_on_ret σ f h hf, ?_⟩
        rw [toggle_enabled_on_state σ f h hf]
        obtain ⟨_, _, _, _, _, h6, _⟩ := fields_of_cfg_eq
          (cfg_update_overlays { σ with default_enabled := true } f)
        simpa using h6
    | none =>
        rw [toggle_enabled_on_none σ h hf]
        exact ⟨rfl, rfl⟩
  · refine ⟨toggle_enabled_off_ret σ h, ?_⟩
    rw [toggle_enabled_off_state σ h]
    have hpr := foldl_pres (fun s => s.default_enabled) remove_step
      (fun s a => by
        obtain ⟨_, _, _, _, _, h6, _⟩ := fields_of_cfg_eq (cfg_remove_step s a)
        exact h6)
      (akeys σ.overlay_processes) { σ with default_enabled := false }
    simpa using hpr

/-- `toggle_enabled` leaves the bounds table and the recorded focus alone. -/
theorem toggle_enabled_frame (σ : DMState) :
    (toggle_enabled σ).2.display_bounds = σ.display_bounds ∧
    (toggle_enabled σ).2.current_focused_display = σ.current_focused_display := by
  cases h : σ.default_enabled
  · cases hf : σ.current_focused_display with
    | some f =>
        rw [toggle_enabled_on_state σ f h hf]
        obtain ⟨h1, h2, _⟩ := fields_of_cfg_eq
          (cfg_update_overlays { σ with default_enabled := true } f)
        exact ⟨h1, by rw [h2]; exact hf.symm ▸ rfl⟩
    | none =>
        rw [toggle_enabled_on_none σ h hf]
        exact ⟨rfl, hf⟩
  · rw [toggle_enabled_off_state σ h]
    obtain ⟨h1, h2, _⟩ := fields_of_cfg_eq (cfg_remove_fold
      (akeys σ.overlay_processes) { σ with default_enabled := false })
    exact ⟨h1, h2⟩

/-! ## Branch shapes of `set_opacity`, and frame lemmas -/

theorem set_opacity_out_of_range (σ : DMState) (v : ℚ) (od : Option Nat)
    (h : ¬ (0 ≤ v ∧ v ≤ 1)) : set_opacity σ v od = (false, σ) := by
  unfold set_opacity; rw [if_pos h]

theorem set_opacity_unknown (σ : DMState) (v : ℚ) (d : Nat)
    (hr : 0 ≤ v ∧ v ≤ 1) (hb : ¬ (aget σ.display_bounds d).isSome) :
    set_opacity σ v (some d) = (false, σ) := by
  unfold set_opacity
  rw [if_neg (not_not_intro hr)]
  simp [hb]

theorem set_opacity_some_present (σ : DMState) (v : ℚ) (d : Nat)
    (hr : 0 ≤ v ∧ v ≤ 1) (hb : (aget σ.display_bounds d).isSome)
    (hov : (aget σ.overlay_processes d).isSome) :
    set_opacity σ v (some d) =
      (true, reopacity_step
        { σ with monitor_opacity := aset σ.monitor_opacity d v } d) := by
  unfold set_opacity
  rw [if_neg (not_not_intro hr)]
  simp [hb, hov]

theorem set_opacity_some_absent (σ : DMState) (v : ℚ) (d : Nat)
    (hr : 0 ≤ v ∧ v ≤ 1) (hb : (aget σ.display_bounds d).isSome)
    (hov : ¬ (aget σ.overlay_processes d).isSome) :
    set_opacity σ v (some d) =
      (true, { σ with monitor_opacity := aset σ.monitor_opacity d v }) := by
  unfold set_opacity
  rw [if_neg (not_not_intro hr)]
  simp [hb, hov]

theorem set_opacity_global (σ : DMState) (v : ℚ) (hr : 0 ≤ v ∧ v ≤ 1) :
    set_opacity σ v none =
      (true,
        (akeys ((akeys ({ σ with default_opacity := v } :
            DMState).display_bounds).foldl (store_opacity_step v)
            { σ with default_opacity := v }).overlay_processes).foldl
          reopacity_step
          ((akeys ({ σ with default_opacity := v } :
            DMState).display_bounds).foldl (store_opacity_step v)
            { σ with default_opacity := v })) := by
  unfold set_opacity
  rw [if_neg (not_not_intro hr)]

/-- The configuration mutator `set_opacity` never touches the bounds table or
the recorded focus. -/
theorem set_opacity_frame (σ : DMState) (v : ℚ) (od : Option Nat) :
    (set_opacity σ v od).2.display_bounds = σ.display_bounds ∧
    (set_opacity σ v od).2.current_focused_display =
      σ.current_focused_display := by
  by_cases hr : 0 ≤ v ∧ v ≤ 1
  swap
  · rw [set_opacity_out_of_range σ v od hr]; exact ⟨rfl, rfl⟩
  · cases od with
    | some d =>
        by_cases hb : (aget σ.display_bounds d).isSome
        swap
        · rw [set_opacity_unknown σ v d hr hb]; exact ⟨rfl, rfl⟩
        · by_cases hov : (aget σ.overlay_processes d).isSome
          · rw [set_opacity_some_present σ v d hr hb hov]
            obtain ⟨h1, h2, _⟩ := fields_of_cfg_eq (cfg_reopacity_step
              { σ with monitor_opacity := aset σ.monitor_opacity d v } d)
            exact ⟨h1, h2⟩
          · rw [set_opacity_some_absent σ v d hr hb hov]
            exact ⟨rfl, rfl⟩
    | none =>
        rw [set_opacity_global σ v hr]
        obtain ⟨hr1, hr2, _⟩ := fields_of_cfg_eq (cfg_reopacity_fold _ _)
        obtain ⟨hf1, hf2, _⟩ := store_fold_fields v _ { σ with default_opacity := v }
        exact ⟨by rw [hr1, hf1], by rw [hr2, hf2]⟩

/-- The configuration mutator `set_monitor_enabled` never touches the bounds
table or the recorded focus. -/
theorem set_monitor_enabled_frame (σ : DMState) (d : Nat) (b : Bool) :
    (set_monitor_enabled σ d b).2.display_bounds = σ.display_bounds ∧
    (set_monitor_enabled σ d b).2.current_focused_display =
      σ.current_focused_display := by
  by_cases hb : (aget σ.display_bounds d).isSome
  swap
  · have hn : aget σ.display_bounds d = none := by
      cases hq : aget σ.display_bounds d
      · rfl
      · rw [hq] at hb; exact absurd rfl hb
    rw [set_monitor_enabled_unknown σ d b hn]
    exact ⟨rfl, rfl⟩
  · cases b
    · rw [set_monitor_enabled_false_eq σ d hb]
      obtain ⟨h1, h2, _⟩ := fields_of_cfg_eq (cfg_remove
        { σ with monitor_enabled := aset σ.monitor_enabled d false } d)
      exact ⟨h1, h2⟩
    · by_cases hf : σ.current_focused_display = some d
      · rw [set_monitor_enabled_true_focused σ d hb hf]
        exact ⟨rfl, rfl⟩
      · rw [set_monitor_enabled_true_unfocused σ d hb hf]
        obtain ⟨h1, h2, _⟩ := fields_of_cfg_eq (cfg_create
          { σ with monitor_enabled := aset σ.monitor_enabled d true } d)
        exact ⟨h1, h2⟩

theorem find_first {α : Type} (pd : α → Bool) :
    ∀ (l₁ : List α) (p : α) (l₂ : List α), pd p = true →
      (∀ q ∈ l₁, pd q = false) →
      (l₁ ++ p :: l₂).find? pd = some p := by
  intro l₁
  induction l₁ with
  | nil =>
      intro p l₂ hp _
      rw [List.nil_append]
      exact List.find?_cons_of_pos _ hp
  | cons a t ih =>
      intro p l₂ hp hq
      rw [List.cons_append,
          List.find?_cons_of_neg _ (by simp [hq a (List.mem_cons_self a t)])]
      exact ih p l₂ hp (fun q hqt => hq q (List.mem_cons_of_mem a hqt))

theorem find_display_for_position_eq (fd : FDState) (dm : DMState) (x y : Int) :
    find_display_for_position fd dm x y =
      match dm.display_bounds.find?
          (fun p => containsPoint p.2 x
            (convert_applescript_to_cocoa_y fd dm y).2) with
      | some p => ((convert_applescript_to_cocoa_y fd dm y).1, p.1)
      | none => ((convert_applescript_to_cocoa_y fd dm y).1, 1) := rfl

/-! ## Claim theorems -/

/-- Claim C1 (counterexample): invariant I1 does not hold after every core
operation.  In the reachable two-display state `demoState` (focus on display
1, display 2 overlaid, I1 holding), `toggle_enabled` removes every overlay but
leaves display 2's effective enabled setting true, so I1 fails afterwards. -/
theorem C1_counterexample :
    I1 demoState ∧ ¬ I1 (toggle_enabled demoState).2 := by
  constructor
  · decide
  · decide

/-- Claim C1 (amended): invariant I1 holds after a focus-change
reconciliation, is preserved by `set_opacity` (either scope) and by
`set_monitor_enabled`, and is restored by `toggle_enabled` when the new
default is true and a focus is recorded.  (It can be broken by
`toggle_enabled` turning the default off, and by a registry refresh that
discovers a new display, until the next reconciliation.) -/
theorem C1_amended :
    (∀ σ f, deadOK σ → (akeys σ.display_bounds).Nodup →
      I1 (apply_focus_change σ f)) ∧
    (∀ σ v od, I1 σ → I1 (set_opacity σ v od).2) ∧
    (∀ σ d b, I1 σ → I1 (set_monitor_enabled σ d b).2) ∧
    (∀ σ f, σ.default_enabled = false → σ.current_focused_display = some f →
      deadOK σ → (akeys σ.display_bounds).Nodup →
      I1 (toggle_enabled σ).2) := by
  refine ⟨?_, I1_set_opacity, I1_set_monitor_enabled, ?_⟩
  · intro σ f hdead hnd
    exact I1_update_overlays { σ with current_focused_display := some f } f
      rfl hdead hnd
  · intro σ f hde hf hdead hnd
    rw [toggle_enabled_on_state σ f hde hf]
    exact I1_update_overlays { σ with default_enabled := true } f hf hdead hnd

theorem C1_amended_witness :
    I1 (apply_focus_change (cache_display_info initState demoScreens) 1) ∧
    I1 (set_opacity demoState (mkRat 1 2) none).2 ∧
    I1 (set_monitor_enabled demoState 2 false).2 ∧
    I1 (toggle_enabled demoDisabled).2 :=
  ⟨C1_amended.1 _ 1 (by decide) (by decide),
   C1_amended.2.1 demoState (mkRat 1 2) none (by decide),
   C1_amended.2.2.1 demoState 2 false (by decide),
   C1_amended.2.2.2 demoDisabled 1 (by decide) (by decide) (by decide)
     (by decide)⟩

/-- Claim C3: opacities outside `[0, 1]` are rejected with the whole state
returned untouched, while 0.0 and 1.0 are accepted. -/
theorem C3_opacity_bounds :
    (∀ σ v od, v < 0 ∨ 1 < v → set_opacity σ v od = (false, σ)) ∧
    (∀ σ, (set_opacity σ 0 none).1 = true ∧ (set_opacity σ 1 none).1 = true) := by
  constructor
  · intro σ v od h
    refine set_opacity_out_of_range σ v od ?_
    rintro ⟨h0, h1⟩
    rcases h with h | h <;> linarith
  · intro σ
    constructor
    · rw [set_opacity_global σ 0 (by norm_num)]
    · rw [set_opacity_global σ 1 (by norm_num)]

theorem C3_opacity_bounds_witness :
    set_opacity initState (mkRat (-1) 10) none = (false, initState) ∧
    set_opacity initState (mkRat 11 10) (some 1) = (false, initState) ∧
    (set_opacity initState 0 none).1 = true ∧
    (set_opacity initState 1 none).1 = true :=
  ⟨C3_opacity_bounds.1 initState (mkRat (-1) 10) none (Or.inl (by decide)),
   C3_opacity_bounds.1 initState (mkRat 11 10) (some 1) (Or.inr (by decide)),
   (C3_opacity_bounds.2 initState).1,
   (C3_opacity_bounds.2 initState).2⟩

/-- Claim C4: running `update_overlays` twice with the same focused display is
idempotent — the second call returns the state unchanged, and since the
spawn/kill counters are part of the state, equality shows the second call
performs no additional process creation or termination. -/
theorem C4_update_overlays_idempotent (σ : DMState) (f : Nat)
    (hdead : deadOK σ) (hnd : (akeys σ.display_bounds).Nodup) :
    update_overlays (update_overlays σ f) f = update_overlays σ f :=
  update_overlays_noop_again σ f hdead hnd

theorem C4_update_overlays_idempotent_witness :
    update_overlays
        (update_overlays (cache_display_info initState demoScreens) 1) 1 =
      update_overlays (cache_display_info initState demoScreens) 1 :=
  C4_update_overlays_idempotent _ 1 (by decide) (by decide)

/-- Claim C8: `set_opacity` with an in-range value and a display that was
never enumerated fails and returns the state untouched. -/
theorem C8_unknown_display (σ : DMState) (v : ℚ) (d : Nat)
    (h0 : 0 ≤ v) (h1 : v ≤ 1) (hb : aget σ.display_bounds d = none) :
    set_opacity σ v (some d) = (false, σ) :=
  set_opacity_unknown σ v d ⟨h0, h1⟩ (by simp [hb])

theorem C8_unknown_display_witness :
    set_opacity demoState (mkRat 1 2) (some 999) = (false, demoState) :=
  C8_unknown_display demoState (mkRat 1 2) 999 (by decide) (by decide)
    (by decide)

/-- Claim C10: the configuration mutators `set_opacity`,
`set_monitor_enabled` and `toggle_enabled` never modify the bounds table or
the recorded focus, whether they succeed or fail. -/
theorem C10_config_frame :
    (∀ σ v od, (set_opacity σ v od).2.display_bounds = σ.display_bounds ∧
      (set_opacity σ v od).2.current_focused_display =
        σ.current_focused_display) ∧
    (∀ σ d b, (set_monitor_enabled σ d b).2.display_bounds = σ.display_bounds ∧
      (set_monitor_enabled σ d b).2.current_focused_display =
        σ.current_focused_display) ∧
    (∀ σ, (toggle_enabled σ).2.display_bounds = σ.display_bounds ∧
      (toggle_enabled σ).2.current_focused_display =
        σ.current_focused_display) :=
  ⟨set_opacity_frame, set_monitor_enabled_frame, toggle_enabled_frame⟩

/-- Claim C2 (counterexample): on focus-query failure the fallback is the
*first-enumerated* display, not the lowest-numbered one.  With displays
enumerated in the order 5, 2, the fallback is 5 although 2 is known and
lower-numbered. -/
theorem C2_counterexample :
    (get_focused_display ⟨none⟩
        (cache_display_info initState
          [(5, ⟨0, 0, 1920, 1080⟩), (2, ⟨1920, 0, 1920, 1080⟩)]) none).2 = 5 ∧
    2 ∈ akeys (cache_display_info initState
      [(5, ⟨0, 0, 1920, 1080⟩), (2, ⟨1920, 0, 1920, 1080⟩)]).display_bounds ∧
    (2 : Nat) < 5 := by
  refine ⟨?_, ?_, ?_⟩ <;> decide

/-- Claim C2 (amended): whenever the OS focus query fails (the parsed
app-info is `none`, which covers process error, timeout and malformed output
alike), `get_focused_display` returns the fallback display — the
first-enumerated known DisplayId in registry iteration order, or 1 when no
display is known — and, being a total function, never raises. -/
theorem C2_fallback :
    ∀ (fd : FDState) (dm : DMState),
      get_focused_display fd dm none = (fd, get_fallback_display dm) ∧
      (dm.display_bounds = [] → get_fallback_display dm = 1) ∧
      (∀ d b t, dm.display_bounds = (d, b) :: t →
        get_fallback_display dm = d) := by
  intro fd dm
  refine ⟨rfl, ?_, ?_⟩
  · intro h; unfold get_fallback_display; rw [h]
  · intro d b t h; unfold get_fallback_display; rw [h]

theorem C2_fallback_witness :
    get_focused_display ⟨none⟩ initState none =
      (⟨none⟩, get_fallback_display initState) ∧
    get_fallback_display initState = 1 ∧
    get_fallback_display (cache_display_info initState demoScreens) = 1 :=
  ⟨(C2_fallback ⟨none⟩ initState).1,
   (C2_fallback ⟨none⟩ initState).2.1 rfl,
   (C2_fallback ⟨none⟩ (cache_display_info initState demoScreens)).2.2
     1 ⟨0, 0, 1920, 1080⟩ [(2, ⟨1920, 0, 1920, 1080⟩)] (by decide)⟩

/-- Claim C7 (counterexample): the cached primary-screen height is *not*
invalidated by a registry refresh.  With 1080 cached and a refresh recording
the primary display at height 720, the next conversion still uses 1080
(yielding 980 for y = 100) instead of re-reading 720. -/
theorem C7_counterexample :
    (convert_applescript_to_cocoa_y ⟨some 1080⟩
        (cache_display_info initState [(1, ⟨0, 0, 1920, 720⟩)]) 100).2 = 980 ∧
    get_main_screen_height
        (cache_display_info initState [(1, ⟨0, 0, 1920, 720⟩)]) = some 720 ∧
    (980 : Int) ≠ 720 - 100 := by
  refine ⟨?_, ?_, ?_⟩ <;> decide

/-- Claim C7 (amended): the primary-display height used for coordinate
conversion is looked up and cached on the first successful conversion, and is
never invalidated afterwards — in particular a `cache_display_info` refresh
does not make the next conversion re-read it. -/
theorem C7_height_cache :
    (∀ (dm : DMState) (y h : Int), get_main_screen_height dm = some h →
      convert_applescript_to_cocoa_y ⟨none⟩ dm y = (⟨some h⟩, h - y)) ∧
    (∀ (fd : FDState) (dm : DMState) (screens : List (Nat × Bounds))
      (y h : Int), fd.main_screen_height = some h →
      convert_applescript_to_cocoa_y fd (cache_display_info dm screens) y =
        (⟨some h⟩, h - y)) := by
  constructor
  · intro dm y h hh
    unfold convert_applescript_to_cocoa_y
    simp [hh]
  · intro fd dm screens y h hh
    unfold convert_applescript_to_cocoa_y
    rw [hh]

theorem C7_height_cache_witness :
    convert_applescript_to_cocoa_y ⟨none⟩
        (cache_display_info initState demoScreens) 100 =
      (⟨some 1080⟩, 1080 - 100) ∧
    convert_applescript_to_cocoa_y ⟨some 1080⟩
        (cache_display_info initState [(1, ⟨0, 0, 1920, 720⟩)]) 100 =
      (⟨some 1080⟩, 1080 - 100) :=
  ⟨C7_height_cache.1 (cache_display_info initState demoScreens) 100 1080
     (by decide),
   C7_height_cache.2 ⟨some 1080⟩ initState [(1, ⟨0, 0, 1920, 720⟩)] 100 1080
     rfl⟩

/-- Claim C9 (counterexample): for a converted position contained in no
known display's bounds, the mapping returns DisplayId 1 even though display 1
is not in the bounds table at all (so the returned id's bounds do not contain
the position). -/
theorem C9_counterexample :
    (find_display_for_position ⟨some 100⟩
        (cache_display_info initState [(2, ⟨0, 0, 10, 10⟩)]) 50 30).2 = 1 ∧
    aget (cache_display_info initState
        [(2, ⟨0, 0, 10, 10⟩)]).display_bounds 1 = none ∧
    (∀ q ∈ (cache_display_info initState
        [(2, ⟨0, 0, 10, 10⟩)]).display_bounds,
      containsPoint q.2 50
        (convert_applescript_to_cocoa_y ⟨some 100⟩
          (cache_display_info initState [(2, ⟨0, 0, 10, 10⟩)]) 30).2 = false) := by
  refine ⟨?_, ?_, ?_⟩ <;> decide

/-- Claim C9 (amended): the position-to-display mapping returns the first
display in bounds-table iteration order whose bounds contain the converted
position; when no display's bounds contain it, it falls back to DisplayId 1
(whose bounds need not contain the position). -/
theorem C9_first_match :
    ∀ (fd : FDState) (dm : DMState) (x y : Int),
      (∀ l₁ p l₂, dm.display_bounds = l₁ ++ p :: l₂ →
        containsPoint p.2 x (convert_applescript_to_cocoa_y fd dm y).2 = true →
        (∀ q ∈ l₁, containsPoint q.2 x
          (convert_applescript_to_cocoa_y fd dm y).2 = false) →
        (find_display_for_position fd dm x y).2 = p.1) ∧
      ((∀ q ∈ dm.display_bounds, containsPoint q.2 x
          (convert_applescript_to_cocoa_y fd dm y).2 = false) →
        (find_display_for_position fd dm x y).2 = 1) := by
  intro fd dm x y
  constructor
  · intro l₁ p l₂ hsplit hp hl₁
    rw [find_display_for_position_eq]
    have hf : dm.display_bounds.find?
        (fun q => containsPoint q.2 x
          (convert_applescript_to_cocoa_y fd dm y).2) = some p := by
      rw [hsplit]
      exact find_first _ l₁ p l₂ hp hl₁
    rw [hf]
  · intro hnone
    rw [find_display_for_position_eq]
    have hf : dm.display_bounds.find?
        (fun q => containsPoint q.2 x
          (convert_applescript_to_cocoa_y fd dm y).2) = none :=
      List.find?_eq_none.mpr (fun q hq => by simp [hnone q hq])
    rw [hf]

theorem C9_first_match_witness :
    (find_display_for_position ⟨some 100⟩
        (cache_display_info initState
          [(3, ⟨0, 0, 100, 100⟩), (4, ⟨0, 0, 100, 100⟩)]) 15 40).2 = 3 ∧
    (find_display_for_position ⟨some 100⟩
        (cache_display_info initState [(2, ⟨0, 0, 10, 10⟩)]) 50 30).2 = 1 :=
  ⟨(C9_first_match ⟨some 100⟩
      (cache_display_info initState
        [(3, ⟨0, 0, 100, 100⟩), (4, ⟨0, 0, 100, 100⟩)]) 15 40).1
      [] (3, ⟨0, 0, 100, 100⟩) [(4, ⟨0, 0, 100, 100⟩)]
      (by decide) (by decide) (by decide),
   (C9_first_match ⟨some 100⟩
      (cache_display_info initState [(2, ⟨0, 0, 10, 10⟩)]) 50 30).2
      (by decide)⟩

theorem remove_step_nextPid (s : DMState) (a : Nat) :
    (remove_step s a).nextPid = s.nextPid := remove_overlay_nextPid s a

/-- Claim C5: `toggle_enabled` flips the global default flag and returns the
new value; turning it off removes every active overlay; turning it back on
(with a focus recorded) re-runs reconciliation against the current focus — so
with focus unchanged, a previously-overlaid enabled non-focused display loses
its overlay on disable and gets it back on re-enable. -/
theorem C5_toggle_enabled :
    (∀ σ, (toggle_enabled σ).1 = !σ.default_enabled ∧
      (toggle_enabled σ).2.default_enabled = !σ.default_enabled) ∧
    (∀ σ, σ.default_enabled = true →
      (toggle_enabled σ).2.overlay_processes = []) ∧
    (∀ σ f, σ.default_enabled = false →
      σ.current_focused_display = some f →
      (toggle_enabled σ).2 =
        update_overlays { σ with default_enabled := true } f) ∧
    (∀ σ f d, σ.default_enabled = true → σ.current_focused_display = some f →
      d ≠ f → (aget σ.display_bounds d).isSome → hasOverlay σ d = true →
      aget σ.monitor_enabled d ≠ some false →
      deadOK σ → (akeys σ.display_bounds).Nodup →
      hasOverlay (toggle_enabled σ).2 d = false ∧
      hasOverlay (toggle_enabled (toggle_enabled σ).2).2 d = true ∧
      (toggle_enabled (toggle_enabled σ).2).2.current_focused_display =
        σ.current_focused_display) := by
  refine ⟨toggle_enabled_flips, toggle_enabled_off_clears,
    (fun σ f h hf => toggle_enabled_on_state σ f h hf), ?_⟩
  intro σ f d hde hf hdf hb hov hmen hdead hnd
  have hclear := toggle_enabled_off_clears σ hde
  have hfr := toggle_enabled_frame σ
  have hde1 : (toggle_enabled σ).2.default_enabled = false := by
    rw [(toggle_enabled_flips σ).2, hde]
    rfl
  have hcf1 : (toggle_enabled σ).2.current_focused_display = some f := by
    rw [hfr.2, hf]
  have hoff := toggle_enabled_off_state σ hde
  obtain ⟨_, _, _, g4, _, _, g7⟩ := fields_of_cfg_eq (cfg_remove_fold
    (akeys σ.overlay_processes) { σ with default_enabled := false })
  have hnp1 : (toggle_enabled σ).2.nextPid = σ.nextPid := by
    rw [hoff]
    exact foldl_pres (fun s => s.nextPid) remove_step remove_step_nextPid _ _
  have hdp1 : (toggle_enabled σ).2.deadPids = σ.deadPids := by rw [hoff]; exact g7
  have hmon1 : (toggle_enabled σ).2.monitor_enabled = σ.monitor_enabled := by
    rw [hoff]; exact g4
  have hb1 : (toggle_enabled σ).2.display_bounds = σ.display_bounds := hfr.1
  have hdead1 : deadOK (toggle_enabled σ).2 := by
    intro p hp
    rw [hdp1] at hp
    rw [hnp1]
    exact hdead p hp
  refine ⟨?_, ?_, ?_⟩
  · unfold hasOverlay
    rw [hclear]
    rfl
  · rw [toggle_enabled_on_state _ f hde1 hcf1]
    have hbl : ({ (toggle_enabled σ).2 with default_enabled := true } :
        DMState).display_bounds = σ.display_bounds := hb1
    have hakeys : akeys ({ (toggle_enabled σ).2 with
        default_enabled := true } : DMState).display_bounds =
        akeys σ.display_bounds := by rw [hbl]
    rw [update_overlays_def, hakeys]
    have hdead2 : deadOK ({ (toggle_enabled σ).2 with
        default_enabled := true } : DMState) := hdead1
    have hd : d ∈ akeys σ.display_bounds :=
      (mem_akeys_iff_aget_isSome _ d).mpr hb
    have hcond := cond_foldl f (akeys σ.display_bounds)
      { (toggle_enabled σ).2 with default_enabled := true } hdead2
      (fun e he => by rw [hbl]; exact (mem_akeys_iff_aget_isSome _ e).mp he)
      hnd d hd
    have hcfgf := foldl_pres cfg (update_step f)
      (fun s a => cfg_update_step f s a) (akeys σ.display_bounds)
      { (toggle_enabled σ).2 with default_enabled := true }
    have hen2 : enabledOf ({ (toggle_enabled σ).2 with
        default_enabled := true } : DMState) d = true := by
      unfold enabledOf
      have hm : ({ (toggle_enabled σ).2 with default_enabled := true } :
          DMState).monitor_enabled = σ.monitor_enabled := hmon1
      rw [hm]
      cases hq : aget σ.monitor_enabled d with
      | none => rfl
      | some b =>
          cases b
          · exact absurd hq hmen
          · rfl
    unfold Cond at hcond
    rw [if_neg hdf] at hcond
    rw [enabledOf_of_cfg_eq hcfgf d, hen2, if_pos rfl] at hcond
    obtain ⟨r, hr, _⟩ := hcond
    show (aget (List.foldl (update_step f)
      { (toggle_enabled σ).2 with default_enabled := true }
      (akeys σ.display_bounds)).overlay_processes d).isSome = true
    rw [hr]
    rfl
  · rw [(toggle_enabled_frame (toggle_enabled σ).2).2, hfr.2]

theorem C5_toggle_enabled_witness :
    (toggle_enabled demoState).1 = !demoState.default_enabled ∧
    (toggle_enabled demoState).2.overlay_processes = [] ∧
    (toggle_enabled demoDisabled).2 =
      update_overlays { demoDisabled with default_enabled := true } 1 ∧
    hasOverlay (toggle_enabled demoState).2 2 = false ∧
    hasOverlay (toggle_enabled (toggle_enabled demoState).2).2 2 = true ∧
    (toggle_enabled (toggle_enabled demoState).2).2.current_focused_display =
      demoState.current_focused_display :=
  ⟨(C5_toggle_enabled.1 demoState).1,
   C5_toggle_enabled.2.1 demoState (by decide),
   C5_toggle_enabled.2.2.1 demoDisabled 1 (by decide) (by decide),
   (C5_toggle_enabled.2.2.2 demoState 1 2 (by decide) (by decide) (by decide)
     (by decide) (by decide) (by decide) (by decide) (by decide)).1,
   (C5_toggle_enabled.2.2.2 demoState 1 2 (by decide) (by decide) (by decide)
     (by decide) (by decide) (by decide) (by decide) (by decide)).2.1,
   (C5_toggle_enabled.2.2.2 demoState 1 2 (by decide) (by decide) (by decide)
     (by decide) (by decide) (by decide) (by decide) (by decide)).2.2⟩

/-- Claim C6: an opacity change recreates exactly the currently-active
overlays with the new opacity and leaves absent displays absent.  Globally,
every tracked overlay is removed and re-created (one kill and one spawn per
active display), every recreated overlay carries the new opacity, the default
is updated, and every known display's stored opacity is overwritten.
Per-display, only the targeted display is recreated (when active) or merely
has its opacity stored (when absent). -/
theorem C6_opacity_recreation :
    (∀ σ v, 0 ≤ v → v ≤ 1 → (akeys σ.overlay_processes).Nodup →
      (∀ e ∈ akeys σ.overlay_processes, (aget σ.display_bounds e).isSome) →
      (set_opacity σ v none).1 = true ∧
      (set_opacity σ v none).2.default_opacity = v ∧
      (∀ d ∈ akeys σ.display_bounds,
        aget (set_opacity σ v none).2.monitor_opacity d = some v) ∧
      (∀ d, hasOverlay (set_opacity σ v none).2 d = hasOverlay σ d) ∧
      (∀ d r, aget (set_opacity σ v none).2.overlay_processes d = some r →
        r.opacity = v) ∧
      (set_opacity σ v none).2.spawnCount =
        σ.spawnCount + (akeys σ.overlay_processes).length ∧
      (set_opacity σ v none).2.killCount =
        σ.killCount + (akeys σ.overlay_processes).length) ∧
    (∀ σ v d, 0 ≤ v → v ≤ 1 → (aget σ.display_bounds d).isSome →
      (set_opacity σ v (some d)).1 = true ∧
      aget (set_opacity σ v (some d)).2.monitor_opacity d = some v ∧
      (set_opacity σ v (some d)).2.default_opacity = σ.default_opacity ∧
      (∀ d', d' ≠ d → aget (set_opacity σ v (some d)).2.overlay_processes d' =
        aget σ.overlay_processes d') ∧
      (hasOverlay σ d = true →
        (∃ r, aget (set_opacity σ v (some d)).2.overlay_processes d = some r ∧
          r.opacity = v) ∧
        (set_opacity σ v (some d)).2.spawnCount = σ.spawnCount + 1 ∧
        (set_opacity σ v (some d)).2.killCount = σ.killCount + 1) ∧
      (hasOverlay σ d = false →
        aget (set_opacity σ v (some d)).2.overlay_processes d = none ∧
        (set_opacity σ v (some d)).2.spawnCount = σ.spawnCount ∧
        (set_opacity σ v (some d)).2.killCount = σ.killCount)) := by
  constructor
  · -- global scope
    intro σ v h0 h1 hnodup hsub
    rw [set_opacity_global σ v ⟨h0, h1⟩]
    obtain ⟨st1, st2, st3, st4, st5, st6, st7, st8, st9, st10⟩ :=
      store_fold_fields v (akeys ({ σ with default_opacity := v } :
        DMState).display_bounds) { σ with default_opacity := v }
    obtain ⟨rf1, rf2, rf3, rf4, rf5, rf6, rf7⟩ := fields_of_cfg_eq
      (cfg_reopacity_fold (akeys ((akeys ({ σ with default_opacity := v } :
        DMState).display_bounds).foldl (store_opacity_step v)
        { σ with default_opacity := v }).overlay_processes)
        ((akeys ({ σ with default_opacity := v} :
          DMState).display_bounds).foldl (store_opacity_step v)
          { σ with default_opacity := v }))
    have hK : akeys ((akeys ({ σ with default_opacity := v } :
        DMState).display_bounds).foldl (store_opacity_step v)
        { σ with default_opacity := v }).overlay_processes =
        akeys σ.overlay_processes := by rw [st6]
    have hB2 : ((akeys ({ σ with default_opacity := v } :
        DMState).display_bounds).foldl (store_opacity_step v)
        { σ with default_opacity := v }).display_bounds =
        σ.display_bounds := st1
    refine ⟨rfl, ?_, ?_, ?_, ?_, ?_, ?_⟩
    · rw [rf5, st5]
    · intro d hd
      rw [rf3]
      exact store_fold_aget_mem v _ _ d hd
    · intro d
      by_cases hdK : d ∈ akeys ((akeys ({ σ with default_opacity := v } :
          DMState).display_bounds).foldl (store_opacity_step v)
          { σ with default_opacity := v }).overlay_processes
      · have hdσ : d ∈ akeys σ.overlay_processes := by rwa [hK] at hdK
        have hbd : (aget ((akeys ({ σ with default_opacity := v } :
            DMState).display_bounds).foldl (store_opacity_step v)
            { σ with default_opacity := v }).display_bounds d).isSome := by
          rw [hB2]; exact hsub d hdσ
        rw [reopacity_fold_hasOverlay_mem _ _ d hbd hdK]
        unfold hasOverlay
        rw [(mem_akeys_iff_aget_isSome σ.overlay_processes d).mp hdσ]
      · unfold hasOverlay
        rw [reopacity_fold_aget_not_mem _ _ d hdK, st6]
    · intro d r hr
      by_cases hdK : d ∈ akeys ((akeys ({ σ with default_opacity := v } :
          DMState).display_bounds).foldl (store_opacity_step v)
          { σ with default_opacity := v }).overlay_processes
      · have hdσ : d ∈ akeys σ.overlay_processes := by rwa [hK] at hdK
        have hbd : (aget ((akeys ({ σ with default_opacity := v } :
            DMState).display_bounds).foldl (store_opacity_step v)
            { σ with default_opacity := v }).display_bounds d).isSome := by
          rw [hB2]; exact hsub d hdσ
        have hndK : (akeys ((akeys ({ σ with default_opacity := v } :
            DMState).display_bounds).foldl (store_opacity_step v)
            { σ with default_opacity := v }).overlay_processes).Nodup := by
          rw [hK]; exact hnodup
        obtain ⟨q, hq, hqop⟩ := reopacity_fold_aget_mem _ _ d hndK hbd hdK
        rw [hq] at hr
        cases hr
        rw [hqop]
        unfold opacityOf
        have hdL : d ∈ akeys ({ σ with default_opacity := v } :
            DMState).display_bounds := by
          exact (mem_akeys_iff_aget_isSome _ d).mpr (hsub d hdσ)
        rw [store_fold_aget_mem v _ _ d hdL]
        rfl
      · rw [reopacity_fold_aget_not_mem _ _ d hdK, st6] at hr
        have : d ∈ akeys σ.overlay_processes :=
          (mem_akeys_iff_aget_isSome _ d).mpr (by rw [hr]; rfl)
        rw [← hK] at this
        exact absurd this hdK
    · have hcnt := reopacity_fold_counts
        (akeys ((akeys ({ σ with default_opacity := v } :
          DMState).display_bounds).foldl (store_opacity_step v)
          { σ with default_opacity := v }).overlay_processes)
        ((akeys ({ σ with
          default_opacity := v } : DMState).display_bounds).foldl
          (store_opacity_step v) { σ with default_opacity := v })
        (by rw [hK]; exact hnodup)
        (by
          intro e he
          have heσ : e ∈ akeys σ.overlay_processes := by rwa [hK] at he
          refine ⟨by rw [hB2]; exact hsub e heσ, ?_⟩
          unfold hasOverlay
          rw [st6]
          exact (mem_akeys_iff_aget_isSome _ e).mp heσ)
      rw [hcnt.1, st9, hK]
    · have hcnt := reopacity_fold_counts
        (akeys ((akeys ({ σ with default_opacity := v } :
          DMState).display_bounds).foldl (store_opacity_step v)
          { σ with default_opacity := v }).overlay_processes)
        ((akeys ({ σ with
          default_opacity := v } : DMState).display_bounds).foldl
          (store_opacity_step v) { σ with default_opacity := v })
        (by rw [hK]; exact hnodup)
        (by
          intro e he
          have heσ : e ∈ akeys σ.overlay_processes := by rwa [hK] at he
          refine ⟨by rw [hB2]; exact hsub e heσ, ?_⟩
          unfold hasOverlay
          rw [st6]
          exact (mem_akeys_iff_aget_isSome _ e).mp heσ)
      rw [hcnt.2, st10, hK]
  · -- per-display scope
    intro σ v d h0 h1 hb
    by_cases hov : (aget σ.overlay_processes d).isSome
    · rw [set_opacity_some_present σ v d ⟨h0, h1⟩ hb hov]
      obtain ⟨p1, p2, p3, p4, p5, p6, p7⟩ := fields_of_cfg_eq
        (cfg_reopacity_step { σ with
          monitor_opacity := aset σ.monitor_opacity d v } d)
      have hb1 : (aget ({ σ with
          monitor_opacity := aset σ.monitor_opacity d v } :
          DMState).display_bounds d).isSome := hb
      have hov1 : hasOverlay ({ σ with
          monitor_opacity := aset σ.monitor_opacity d v } : DMState) d =
          true := hov
      obtain ⟨hc1, hc2⟩ := reopacity_step_counts
        { σ with monitor_opacity := aset σ.monitor_opacity d v } d hov1 hb1
      refine ⟨rfl, ?_, ?_, ?_, ?_, ?_⟩
      · rw [p3]
        exact aget_aset_self σ.monitor_opacity d v
      · rw [p5]
      · intro d' hd'
        exact reopacity_step_aget_ne _ d d' hd'
      · intro _
        refine ⟨⟨_, reopacity_step_aget_self _ d hb1, ?_⟩, hc1, hc2⟩
        show opacityOf ({ σ with
          monitor_opacity := aset σ.monitor_opacity d v } : DMState) d = v
        unfold opacityOf
        rw [show ({ σ with monitor_opacity := aset σ.monitor_opacity d v } :
          DMState).monitor_opacity = aset σ.monitor_opacity d v from rfl]
        rw [aget_aset_self σ.monitor_opacity d v]
        rfl
      · intro hfalse
        unfold hasOverlay at hfalse
        rw [hov] at hfalse
        exact absurd hfalse (by decide)
    · rw [set_opacity_some_absent σ v d ⟨h0, h1⟩ hb hov]
      have hn : aget σ.overlay_processes d = none := by
        cases hq : aget σ.overlay_processes d
        · rfl
        · rw [hq] at hov; exact absurd rfl hov
      refine ⟨rfl, ?_, rfl, ?_, ?_, ?_⟩
      · exact aget_aset_self σ.monitor_opacity d v
      · intro d' _
        rfl
      · intro htrue
        unfold hasOverlay at htrue
        rw [hn] at htrue
        exact absurd htrue (by decide)
      · intro _
        exact ⟨hn, rfl, rfl⟩

theorem C6_opacity_recreation_witness :
    (set_opacity demoState (mkRat 1 2) none).1 = true ∧
    (set_opacity demoState (mkRat 1 2) none).2.default_opacity = mkRat 1 2 ∧
    aget (set_opacity demoState (mkRat 1 2) none).2.monitor_opacity 1 =
      some (mkRat 1 2) ∧
    hasOverlay (set_opacity demoState (mkRat 1 2) none).2 2 =
      hasOverlay demoState 2 ∧
    (set_opacity demoState (mkRat 1 2) none).2.spawnCount =
      demoState.spawnCount + (akeys demoState.overlay_processes).length ∧
    (set_opacity demoState (mkRat 1 2) none).2.killCount =
      demoState.killCount + (akeys demoState.overlay_processes).length ∧
    (set_opacity demoState (mkRat 1 4) (some 2)).1 = true ∧
    aget (set_opacity demoState (mkRat 1 4) (some 2)).2.monitor_opacity 2 =
      some (mkRat 1 4) ∧
    (set_opacity demoState (mkRat 1 4) (some 2)).2.spawnCount =
      demoState.spawnCount + 1 ∧
    (set_opacity demoState (mkRat 1 4) (some 2)).2.killCount =
      demoState.killCount + 1 :=
  ⟨(C6_opacity_recreation.1 demoState (mkRat 1 2) (by decide) (by decide)
      (by decide) (by decide)).1,
   (C6_opacity_recreation.1 demoState (mkRat 1 2) (by decide) (by decide)
      (by decide) (by decide)).2.1,
   (C6_opacity_recreation.1 demoState (mkRat 1 2) (by decide) (by decide)
      (by decide) (by decide)).2.2.1 1 (by decide),
   (C6_opacity_recreation.1 demoState (mkRat 1 2) (by decide) (by decide)
      (by decide) (by decide)).2.2.2.1 2,
   (C6_opacity_recreation.1 demoState (mkRat 1 2) (by decide) (by decide)
      (by decide) (by decide)).2.2.2.2.2.1,
   (C6_opacity_recreation.1 demoState (mkRat 1 2) (by decide) (by decide)
      (by decide) (by decide)).2.2.2.2.2.2,
   (C6_opacity_recreation.2 demoState (mkRat 1 4) 2 (by decide) (by decide)
      (by decide)).1,
   (C6_opacity_recreation.2 demoState (mkRat 1 4) 2 (by decide) (by decide)
      (by decide)).2.1,
   ((C6_opacity_recreation.2 demoState (mkRat 1 4) 2 (by decide) (by decide)
      (by decide)).2.2.2.2.1 (by decide)).2.1,
   ((C6_opacity_recreation.2 demoState (mkRat 1 4) 2 (by decide) (by decide)
      (by decide)).2.2.2.2.1 (by decide)).2.2⟩

end QuickDimmer
